import Mathlib

/-!
# Verification of the vortexkey pixel/Hamming codecs

Shallow embedding of `src/converter.rs` and `src/error_correction.rs` from the
vortexkey repository.  Machine integers (`u8`, `u32`, `u64`) are modelled as
`Nat` with explicit truncation (`% 2 ^ 32`, `% 2 ^ 64`) at the points where the
Rust code can overflow; byte buffers are `List Nat` whose elements are < 256.
Fallible Rust functions returning `anyhow::Result` are modelled with
`Except String`.
-/

namespace Vortexkey

set_option maxHeartbeats 1000000

/-! ## Generic bit-stream repacking

Both the pixel codec (`Converter::data_to_frame` / `frame_to_data`) and the
Hamming stream codec (`encode_with_hamming_31_26` / `decode_with_hamming_31_26`)
use the same shift-register idiom: bytes (or symbols) are pushed into a bit
buffer MSB-first, and fixed-width groups are greedily extracted from the top.
`drain` models the inner `while bit_count >= W` loop and `runStream` the outer
`for` loop over the input symbols. -/

/-- The inner extraction loop: while at least `W` bits are buffered, take the
top `W` bits (`(buf >>> (cnt - W)) &&& mask`) and decrement the counter.
The buffer itself is left unchanged, exactly as in the Rust code. -/
def drain (W mask buf : Nat) (cnt : Nat) : List Nat × Nat :=
  if h : 0 < W ∧ W ≤ cnt then
    let d := (buf >>> (cnt - W)) &&& mask
    let r := drain W mask buf (cnt - W)
    (d :: r.1, r.2)
  else ([], cnt)
termination_by cnt
decreasing_by omega

/-- One outer-loop iteration followed by the rest of the stream: shift the next
symbol into the buffer (with wrap-around modulus `M` of the machine integer
holding the buffer), bump the counter by the symbol width `wIn`, and drain all
complete `wOut`-bit groups. -/
def runStream (M wIn wOut mask : Nat) : Nat × Nat → List Nat → (Nat × Nat) × List Nat
  | st, [] => (st, [])
  | st, x :: rest =>
    let buf' := ((st.1 <<< wIn) ||| x) % M
    let dr := drain wOut mask buf' (st.2 + wIn)
    let r := runStream M wIn wOut mask (buf', dr.2) rest
    (r.1, dr.1 ++ r.2)

theorem runStream_cons (M wIn wOut mask buf cnt x : Nat) (rest : List Nat) :
    runStream M wIn wOut mask (buf, cnt) (x :: rest) =
      ((runStream M wIn wOut mask
          (((buf <<< wIn) ||| x) % M,
            (drain wOut mask (((buf <<< wIn) ||| x) % M) (cnt + wIn)).2) rest).1,
        (drain wOut mask (((buf <<< wIn) ||| x) % M) (cnt + wIn)).1 ++
        (runStream M wIn wOut mask
          (((buf <<< wIn) ||| x) % M,
            (drain wOut mask (((buf <<< wIn) ||| x) % M) (cnt + wIn)).2) rest).2) := rfl

theorem runStream_cons_drain (M wIn wOut mask buf cnt x : Nat) (rest : List Nat)
    (ds : List Nat) (c2 : Nat)
    (h : drain wOut mask (((buf <<< wIn) ||| x) % M) (cnt + wIn) = (ds, c2)) :
    runStream M wIn wOut mask (buf, cnt) (x :: rest) =
      ((runStream M wIn wOut mask ((((buf <<< wIn) ||| x) % M), c2) rest).1,
        ds ++ (runStream M wIn wOut mask ((((buf <<< wIn) ||| x) % M), c2) rest).2) := by
  rw [runStream_cons, h]

/-- The most-significant-first digits of `n` in base `b`, padded/truncated to
`k` digits (the leading digit is *not* reduced mod `b`; all uses keep
`n < b ^ k` so that every digit is a genuine digit). -/
def digitsMSB (b : Nat) : Nat → Nat → List Nat
  | 0, _ => []
  | k + 1, n => digitsMSB b k (n / b) ++ [n % b]

/-- Reassemble a number from most-significant-first digits, starting from an
accumulator `a` (`a` is the already-consumed, more significant part). -/
def undigits (b : Nat) (a : Nat) (l : List Nat) : Nat :=
  l.foldl (fun s d => s * b + d) a

/-! ### Arithmetic helpers -/

theorem testBit_mul_pow_add (P x k j : Nat) (hx : x < 2 ^ k) :
    (P * 2 ^ k + x).testBit j = if j < k then x.testBit j else P.testBit (j - k) := by
  rcases Nat.lt_or_ge j k with hj | hj
  · rw [if_pos hj, Nat.testBit_to_div_mod, Nat.testBit_to_div_mod]
    have hk : P * 2 ^ k + x = x + 2 ^ j * (P * 2 ^ (k - j - 1) * 2) := by
      have : 2 ^ k = 2 ^ j * (2 ^ (k - j - 1) * 2) := by
        rw [← pow_succ, ← pow_add]; congr 1; omega
      rw [this]; ring
    have hdiv : (P * 2 ^ k + x) / 2 ^ j = x / 2 ^ j + P * 2 ^ (k - j - 1) * 2 := by
      rw [hk, Nat.add_mul_div_left _ _ (Nat.pos_pow_of_pos j (by omega))]
    rw [hdiv]
    have hmod : (x / 2 ^ j + P * 2 ^ (k - j - 1) * 2) % 2 = x / 2 ^ j % 2 := by
      omega
    rw [hmod]
  · rw [if_neg (by omega : ¬ j < k)]
    have hj2 : 2 ^ j = 2 ^ k * 2 ^ (j - k) := by rw [← pow_add]; congr 1; omega
    have hdiv : (P * 2 ^ k + x) / 2 ^ j = P / 2 ^ (j - k) := by
      rw [hj2, ← Nat.div_div_eq_div_mul, Nat.add_comm,
        Nat.add_mul_div_right _ _ (Nat.pos_pow_of_pos k (by omega)),
        Nat.div_eq_of_lt hx, Nat.zero_add]
    rw [Nat.testBit_to_div_mod, Nat.testBit_to_div_mod, hdiv]

theorem shiftLeft_or_eq_add (x y k : Nat) (hy : y < 2 ^ k) :
    (x <<< k) ||| y = x * 2 ^ k + y := by
  apply Nat.eq_of_testBit_eq
  intro j
  rw [Nat.testBit_or, Nat.testBit_shiftLeft, testBit_mul_pow_add _ _ _ _ hy]
  rcases Nat.lt_or_ge j k with hj | hj
  · simp [hj, Nat.not_le_of_lt hj]
  · have : y.testBit j = false :=
      Nat.testBit_lt_two_pow (lt_of_lt_of_le hy (Nat.pow_le_pow_right (by omega) hj))
    simp [this, hj, Nat.not_lt_of_ge hj]

theorem div_mod_eq_mod_mul_div' (a b c : Nat) : a / b % c = a % (b * c) / b := by
  rw [Nat.mod_mul_right_div_self]

theorem mod_pow_mod (a m n : Nat) (h : n ≤ m) : a % 2 ^ m % 2 ^ n = a % 2 ^ n :=
  Nat.mod_mod_of_dvd a (pow_dvd_pow 2 h)

theorem mul_pow_add_mod (a r s m : Nat) (hr : r < 2 ^ m) :
    (a * 2 ^ m + r) % 2 ^ (s + m) = a % 2 ^ s * 2 ^ m + r := by
  have h1 : 2 ^ (s + m) = 2 ^ s * 2 ^ m := by rw [pow_add]
  have h2 : a * 2 ^ m % (2 ^ s * 2 ^ m) = a % 2 ^ s * 2 ^ m := by
    rw [Nat.mul_mod_mul_right]
  rw [h1, Nat.add_mod, h2, Nat.mod_eq_of_lt (a := r)]
  · have hlt : a % 2 ^ s * 2 ^ m + r < 2 ^ s * 2 ^ m := by
      have := Nat.mod_lt a (y := 2 ^ s) (Nat.pos_pow_of_pos s (by omega))
      calc a % 2 ^ s * 2 ^ m + r < a % 2 ^ s * 2 ^ m + 2 ^ m := by omega
        _ = (a % 2 ^ s + 1) * 2 ^ m := by ring
        _ ≤ 2 ^ s * 2 ^ m := Nat.mul_le_mul_right _ (by omega)
    rw [Nat.mod_eq_of_lt hlt]
  · exact lt_of_lt_of_le hr (Nat.le_mul_of_pos_left _ (Nat.pos_pow_of_pos s (by omega)))

theorem mul_pow_add_div (a r m : Nat) (hr : r < 2 ^ m) :
    (a * 2 ^ m + r) / 2 ^ m = a := by
  rw [Nat.add_comm, Nat.add_mul_div_right _ _ (Nat.pos_pow_of_pos m (by omega)),
    Nat.div_eq_of_lt hr]
  omega

/-! ### digitsMSB / undigits theory -/

theorem digitsMSB_cons (b k n : Nat) (hb : 1 < b) (hn : n < b ^ (k + 1)) :
    digitsMSB b (k + 1) n = n / b ^ k :: digitsMSB b k (n % b ^ k) := by
  induction k generalizing n with
  | zero =>
    simp only [digitsMSB, pow_zero, Nat.div_one, List.nil_append]
    rw [Nat.mod_eq_of_lt (by simpa using hn)]
  | succ k ih =>
    show digitsMSB b (k + 1) (n / b) ++ [n % b] = _
    have hdiv : n / b < b ^ (k + 1) := by
      rw [Nat.div_lt_iff_lt_mul (by omega)]
      calc n < b ^ (k + 2) := hn
        _ = b ^ (k + 1) * b := by ring
    rw [ih _ hdiv]
    show n / b / b ^ k :: (digitsMSB b k (n / b % b ^ k) ++ [n % b]) = _
    have h1 : n / b / b ^ k = n / b ^ (k + 1) := by
      rw [Nat.div_div_eq_div_mul, ← pow_succ']
    have h2 : n / b % b ^ k = n % b ^ (k + 1) / b := by
      rw [div_mod_eq_mod_mul_div', ← pow_succ']
    have h3 : n % b = n % b ^ (k + 1) % b := by
      rw [Nat.mod_mod_of_dvd _ (dvd_pow_self b (by omega))]
    rw [h1, h2, h3]
    rfl

theorem digitsMSB_split (b j k n : Nat) :
    digitsMSB b (j + k) n = digitsMSB b j (n / b ^ k) ++ digitsMSB b k (n % b ^ k) := by
  induction k generalizing n with
  | zero => simp [digitsMSB, Nat.mod_one]
  | succ k ih =>
    show digitsMSB b (j + k) (n / b) ++ [n % b] = _
    rw [ih]
    have h1 : n / b / b ^ k = n / b ^ (k + 1) := by
      rw [Nat.div_div_eq_div_mul, ← pow_succ']
    have h2 : n / b % b ^ k = n % b ^ (k + 1) / b := by
      rw [div_mod_eq_mod_mul_div', ← pow_succ']
    have h3 : n % b = n % b ^ (k + 1) % b := by
      rw [Nat.mod_mod_of_dvd _ (dvd_pow_self b (by omega))]
    rw [h1, h2, h3, List.append_assoc]
    rfl

theorem digitsMSB_lt (b k n : Nat) (hb : 1 < b) (hn : n < b ^ k) :
    ∀ d ∈ digitsMSB b k n, d < b := by
  induction k generalizing n with
  | zero => simp [digitsMSB]
  | succ k ih =>
    intro d hd
    simp only [digitsMSB, List.mem_append, List.mem_singleton] at hd
    rcases hd with hd | hd
    · exact ih (n / b) (by
        rw [Nat.div_lt_iff_lt_mul (by omega)]
        calc n < b ^ (k + 1) := hn
          _ = b ^ k * b := by ring) d hd
    · rw [hd]; exact Nat.mod_lt _ (by omega)

theorem undigits_digitsMSB (b k n a : Nat) (hb : 1 < b) (hn : n < b ^ k) :
    undigits b a (digitsMSB b k n) = a * b ^ k + n := by
  induction k generalizing n a with
  | zero => simp_all [digitsMSB, undigits, List.foldl]
  | succ k ih =>
    show undigits b a (digitsMSB b k (n / b) ++ [n % b]) = _
    unfold undigits
    rw [List.foldl_append]
    have hdiv : n / b < b ^ k := by
      rw [Nat.div_lt_iff_lt_mul (by omega)]
      calc n < b ^ (k + 1) := hn
        _ = b ^ k * b := by ring
    have ihval := ih (n / b) a hdiv
    unfold undigits at ihval
    rw [ihval]
    show (a * b ^ k + n / b) * b + n % b = a * b ^ (k + 1) + n
    have := Nat.div_add_mod n b
    have hp : b ^ (k + 1) = b ^ k * b := by ring
    rw [hp]
    nlinarith [Nat.div_add_mod n b]

theorem digitsMSB_undigits (b : Nat) (hb : 1 < b) :
    ∀ (l : List Nat), (∀ d ∈ l, d < b) →
      digitsMSB b l.length (undigits b 0 l) = l := by
  intro l
  induction l using List.reverseRecOn with
  | nil => simp [digitsMSB, undigits]
  | append_singleton l d ih =>
    intro hd
    have hdl : ∀ x ∈ l, x < b := fun x hx => hd x (by simp [hx])
    have hdd : d < b := hd d (by simp)
    have hu : undigits b 0 (l ++ [d]) = undigits b 0 l * b + d := by
      unfold undigits
      rw [List.foldl_append]
      rfl
    have hlen : (l ++ [d]).length = l.length + 1 := by simp
    rw [hlen, hu]
    show digitsMSB b l.length ((undigits b 0 l * b + d) / b) ++
      [(undigits b 0 l * b + d) % b] = l ++ [d]
    have h1 : (undigits b 0 l * b + d) / b = undigits b 0 l := by
      rw [Nat.add_comm, Nat.add_mul_div_right _ _ (by omega), Nat.div_eq_of_lt hdd]
      omega
    have h2 : (undigits b 0 l * b + d) % b = d := by
      rw [Nat.add_comm, Nat.add_mul_mod_self_right, Nat.mod_eq_of_lt hdd]
    rw [h1, h2, ih hdl]

theorem undigits_acc (b : Nat) :
    ∀ (l : List Nat) (a : Nat), undigits b a l = a * b ^ l.length + undigits b 0 l := by
  intro l
  induction l with
  | nil => simp [undigits]
  | cons d l ih =>
    intro a
    show undigits b (a * b + d) l = _
    rw [ih (a * b + d)]
    have h0 : undigits b 0 (d :: l) = undigits b d l := by
      simp [undigits, List.foldl]
    rw [h0, ih d]
    show (a * b + d) * b ^ l.length + undigits b 0 l =
      a * b ^ (d :: l).length + (d * b ^ l.length + undigits b 0 l)
    have hlen : (d :: l).length = l.length + 1 := rfl
    rw [hlen]
    ring

theorem undigits_lt (b : Nat) (hb : 1 < b) :
    ∀ (l : List Nat) (a : Nat), (∀ d ∈ l, d < b) →
      undigits b a l < (a + 1) * b ^ l.length := by
  intro l
  induction l with
  | nil => intro a _; simp [undigits]
  | cons d l ih =>
    intro a hd
    show undigits b (a * b + d) l < _
    have h1 := ih (a * b + d) (fun x hx => hd x (by simp [hx]))
    have h2 : d < b := hd d (by simp)
    have hlen : (d :: l).length = l.length + 1 := rfl
    rw [hlen]
    calc undigits b (a * b + d) l < (a * b + d + 1) * b ^ l.length := h1
      _ ≤ (a + 1) * b * b ^ l.length := Nat.mul_le_mul_right _ (by nlinarith)
      _ = (a + 1) * b ^ (l.length + 1) := by ring

/-! ### Characterization of `drain` and `runStream` -/

theorem drain_spec (W mask buf : Nat) (hW : 0 < W) (hmask : mask = 2 ^ W - 1) :
    ∀ cnt, drain W mask buf cnt =
      (digitsMSB (2 ^ W) (cnt / W) (buf % 2 ^ cnt / 2 ^ (cnt % W)), cnt % W) := by
  intro cnt
  induction cnt using Nat.strong_induction_on with
  | _ cnt ih =>
    rw [drain]
    by_cases h : W ≤ cnt
    · rw [dif_pos ⟨hW, h⟩]
      have hsub : cnt - W < cnt := by omega
      rw [ih _ hsub]
      have hmodeq : (cnt - W) % W = cnt % W := by
        conv_rhs => rw [show cnt = cnt - W + W by omega]
        rw [Nat.add_mod_right]
      have hdiveq : cnt / W = (cnt - W) / W + 1 := by
        conv_lhs => rw [show cnt = cnt - W + W by omega]
        rw [Nat.add_div_right _ hW]
      set V := buf % 2 ^ cnt with hV
      set ρ := cnt % W with hρ
      set m := (cnt - W) / W with hm
      have hρlt : ρ < W := Nat.mod_lt _ hW
      have hWm : W * m + ρ = cnt - W := by
        have h1 := Nat.div_add_mod (cnt - W) W
        rw [← hm, hmodeq] at h1
        exact h1
      -- The drained digit equals the most significant remaining group.
      have hd : (buf >>> (cnt - W)) &&& mask = V / 2 ^ (cnt - W) := by
        rw [hmask, Nat.shiftRight_eq_div_pow, Nat.and_pow_two_sub_one_eq_mod]
        rw [div_mod_eq_mod_mul_div', ← pow_add,
          show cnt - W + W = cnt from by omega, hV]
      have hVlt : V < 2 ^ cnt := Nat.mod_lt _ (Nat.pos_pow_of_pos _ (by omega))
      have hMlt : V / 2 ^ ρ < (2 ^ W) ^ (m + 1) := by
        rw [← pow_mul, Nat.mul_succ]
        rw [Nat.div_lt_iff_lt_mul (Nat.pos_pow_of_pos _ (by omega))]
        calc V < 2 ^ cnt := hVlt
          _ = 2 ^ (W * m + W) * 2 ^ ρ := by
              rw [← pow_add, show W * m + W + ρ = cnt from by omega]
      have hcons := digitsMSB_cons (2 ^ W) m (V / 2 ^ ρ) (by
        have := Nat.one_lt_two_pow_iff (n := W)
        omega) hMlt
      have hhead : V / 2 ^ ρ / (2 ^ W) ^ m = V / 2 ^ (cnt - W) := by
        rw [← pow_mul, Nat.div_div_eq_div_mul, ← pow_add,
          show ρ + W * m = cnt - W from by omega]
      have htail : V / 2 ^ ρ % (2 ^ W) ^ m = buf % 2 ^ (cnt - W) / 2 ^ ρ := by
        rw [← pow_mul, div_mod_eq_mod_mul_div', ← pow_add,
          show ρ + W * m = cnt - W from by omega, hV,
          mod_pow_mod _ _ _ (by omega)]
      rw [hdiveq, hmodeq, hcons, hhead, htail, hd]
    · rw [dif_neg (by omega)]
      have h0 : cnt / W = 0 := Nat.div_eq_of_lt (by omega)
      have h1 : cnt % W = cnt := Nat.mod_eq_of_lt (by omega)
      rw [h0, h1]
      rfl

theorem runStream_spec (M wIn wOut mask mw : Nat)
    (hwIn : 0 < wIn) (hwOut : 0 < wOut) (hmask : mask = 2 ^ wOut - 1)
    (hM : M = 2 ^ mw) (hw : wOut + wIn ≤ mw) :
    ∀ (xs : List Nat) (buf cnt : Nat), (∀ x ∈ xs, x < 2 ^ wIn) → cnt < wOut →
      ∃ buf',
        runStream M wIn wOut mask (buf, cnt) xs =
          ((buf', (cnt + wIn * xs.length) % wOut),
            digitsMSB (2 ^ wOut) ((cnt + wIn * xs.length) / wOut)
              (undigits (2 ^ wIn) (buf % 2 ^ cnt) xs /
                2 ^ ((cnt + wIn * xs.length) % wOut))) ∧
        buf' % 2 ^ ((cnt + wIn * xs.length) % wOut) =
          undigits (2 ^ wIn) (buf % 2 ^ cnt) xs %
            2 ^ ((cnt + wIn * xs.length) % wOut) := by
  intro xs
  induction xs with
  | nil =>
    intro buf cnt _ hcnt
    refine ⟨buf, ?_, ?_⟩
    · have h1 : (cnt + wIn * 0) % wOut = cnt := by
        rw [Nat.mul_zero, Nat.add_zero, Nat.mod_eq_of_lt hcnt]
      have h2 : (cnt + wIn * 0) / wOut = 0 := by
        rw [Nat.mul_zero, Nat.add_zero]; exact Nat.div_eq_of_lt hcnt
      rw [List.length_nil, h1, h2]
      rfl
    · have h1 : (cnt + wIn * 0) % wOut = cnt := by
        rw [Nat.mul_zero, Nat.add_zero, Nat.mod_eq_of_lt hcnt]
      rw [List.length_nil, h1]
      show buf % 2 ^ cnt = buf % 2 ^ cnt % 2 ^ cnt
      rw [mod_pow_mod _ _ _ (le_refl cnt)]
  | cons x rest ih =>
    intro buf cnt hxs hcnt
    have hx : x < 2 ^ wIn := hxs x (by simp)
    have hrest : ∀ y ∈ rest, y < 2 ^ wIn := fun y hy => hxs y (by simp [hy])
    have h2wIn : (1 : Nat) < 2 ^ wIn := Nat.one_lt_two_pow_iff.mpr (by omega)
    set P := buf % 2 ^ cnt with hP
    set V := P * 2 ^ wIn + x with hVdef
    set c1 := cnt + wIn with hc1
    set buf1 := ((buf <<< wIn) ||| x) % M with hbuf1
    have hbuf1V : buf1 % 2 ^ c1 = V := by
      rw [hbuf1, shiftLeft_or_eq_add _ _ _ hx, hM,
        mod_pow_mod _ _ _ (by omega), hc1, mul_pow_add_mod _ _ _ _ hx]
    have hVlt : V < 2 ^ c1 := by
      have hPlt : P < 2 ^ cnt := Nat.mod_lt _ (Nat.pos_pow_of_pos _ (by omega))
      calc V < P * 2 ^ wIn + 2 ^ wIn := by omega
        _ = (P + 1) * 2 ^ wIn := by ring
        _ ≤ 2 ^ cnt * 2 ^ wIn := Nat.mul_le_mul_right _ (by omega)
        _ = 2 ^ c1 := by rw [← pow_add]
    set r1 := c1 % wOut with hr1
    have hr1lt : r1 < wOut := Nat.mod_lt _ hwOut
    have hdrain := drain_spec wOut mask buf1 hwOut hmask c1
    have hbuf1r1 : buf1 % 2 ^ r1 = V % 2 ^ r1 := by
      rw [← hbuf1V, mod_pow_mod _ _ _ (Nat.mod_le _ _)]
    obtain ⟨buf', hrun, hbuf'⟩ := ih buf1 r1 hrest hr1lt
    -- abbreviations for the combined-step statement
    set m := wIn * rest.length with hm
    set L2 := r1 + m with hL2
    set j := c1 / wOut with hj
    set k2 := L2 / wOut with hk2
    set ρ := L2 % wOut with hρ2
    have hρL2 : ρ ≤ L2 := by rw [hρ2]; exact Nat.mod_le _ _
    have hL2decomp : wOut * k2 + ρ = L2 := by
      rw [hk2, hρ2]; exact Nat.div_add_mod L2 wOut
    have hc1decomp : wOut * j + r1 = c1 := by
      rw [hj, hr1]; exact Nat.div_add_mod c1 wOut
    have hLtot : cnt + wIn * (x :: rest).length = wOut * j + L2 := by
      simp only [List.length_cons]
      have hdist : wIn * (rest.length + 1) = m + wIn := by rw [hm, Nat.mul_succ]
      omega
    have hmodL : (cnt + wIn * (x :: rest).length) % wOut = ρ := by
      rw [hLtot, Nat.mul_add_mod, ← hρ2]
    have hdivL : (cnt + wIn * (x :: rest).length) / wOut = j + k2 := by
      rw [hLtot, Nat.mul_add_div hwOut, ← hk2]
    set NN := undigits (2 ^ wIn) V rest with hNNdef
    have hNNcons : undigits (2 ^ wIn) P (x :: rest) = NN := rfl
    set R := undigits (2 ^ wIn) 0 rest with hR
    have hpowm : (2 ^ wIn) ^ rest.length = 2 ^ m := by rw [hm, pow_mul]
    have hNNeq : NN = V * 2 ^ m + R := by
      rw [hNNdef, undigits_acc, hpowm, hR]
    have hRlt : R < 2 ^ m := by
      have h := undigits_lt (2 ^ wIn) h2wIn rest 0 hrest
      rw [hpowm] at h
      omega
    have hNNL2 : NN % 2 ^ L2 = undigits (2 ^ wIn) (V % 2 ^ r1) rest := by
      rw [hNNeq, hL2, mul_pow_add_mod _ _ _ _ hRlt, undigits_acc, hpowm, hR]
    have hNNdiv : NN / 2 ^ L2 = V / 2 ^ r1 := by
      rw [hNNeq, hL2,
        show (2 : Nat) ^ (r1 + m) = 2 ^ m * 2 ^ r1 by rw [← pow_add]; congr 1; omega,
        ← Nat.div_div_eq_div_mul, mul_pow_add_div _ _ _ hRlt]
    rw [hbuf1r1] at hrun hbuf'
    refine ⟨buf', ?_, ?_⟩
    · have hstep := runStream_cons_drain M wIn wOut mask buf cnt x rest _ _ hdrain
      rw [hstep]
      simp only [← hbuf1]
      rw [hrun]
      rw [hmodL, hdivL, hNNcons]
      have hsplit := digitsMSB_split (2 ^ wOut) j k2 (NN / 2 ^ ρ)
      have ha : NN / 2 ^ ρ / (2 ^ wOut) ^ k2 = V / 2 ^ r1 := by
        rw [← pow_mul, Nat.div_div_eq_div_mul, ← pow_add,
          show ρ + wOut * k2 = L2 by omega, hNNdiv]
      have hb : NN / 2 ^ ρ % (2 ^ wOut) ^ k2 =
          undigits (2 ^ wIn) (V % 2 ^ r1) rest / 2 ^ ρ := by
        rw [← pow_mul, div_mod_eq_mod_mul_div', ← pow_add,
          show ρ + wOut * k2 = L2 by omega, hNNL2]
      rw [ha, hb] at hsplit
      rw [hbuf1V, hsplit]
    · rw [hmodL, hNNcons, hbuf', ← hNNL2, mod_pow_mod _ _ _ hρL2]

/-! ## Hamming(31,26) SEC-DED codeword layer (`src/error_correction.rs`,
`src/constants.rs`) -/

/-- Constants from `src/constants.rs`. -/
def HAMMING_DATA_POSITIONS_31_26 : List Nat :=
  [2, 4, 5, 6, 8, 9, 10, 11, 12, 13, 14, 16, 17, 18, 19, 20, 21, 22, 23, 24,
    25, 26, 27, 28, 29, 30]

def HAMMING_PARITY_POSITIONS_31_26 : List Nat := [1, 2, 4, 8, 16]

def HAMMING_DATA_BITS_31_26 : Nat := 26

def BIT_MASK_26 : Nat := (1 <<< 26) - 1

def BIT_MASK_31 : Nat := (1 <<< 31) - 1

def HAMMING_CHUNK_BYTES_31_26 : Nat := 13

def HAMMING_CHUNK_BYTES_TOAL_31_26 : Nat := 16

def BYTES_U32 : Nat := 4

inductive HammingStatus where
  | NoError : HammingStatus
  | CorrectedSingle : HammingStatus
  | Uncorrectable : HammingStatus
deriving DecidableEq

structure HammingReport where
  corrected_errors : Nat
  uncorrected_errors : Nat
deriving DecidableEq

/-- `u32::count_ones`: number of set bits among bits 0..31 (all our words are
below `2 ^ 32`, so counting the low 32 bits is faithful). -/
def countOnes (n : Nat) : Nat := (List.range 32).countP (fun i => n.testBit i)

/-- The inner parity loop shared by `hamming_31_26_encode` and
`hamming_31_26_decode`: XOR of the bits of `w` whose 1-based position has the
bit `p` set. -/
def parityFold (p w : Nat) : Nat :=
  (List.range 31).foldl
    (fun parity bit =>
      if (bit + 1) &&& p ≠ 0 then parity ^^^ ((w >>> bit) &&& 1) else parity) 0

/-- `hamming_31_26_encode` from `src/error_correction.rs`. -/
def hamming_31_26_encode (data_bits : Nat) : Nat :=
  let d := data_bits &&& BIT_MASK_26
  let cw1 := HAMMING_DATA_POSITIONS_31_26.enum.foldl
    (fun cw io => cw ||| (((d >>> io.1) &&& 1) <<< io.2)) 0
  let cw2 := HAMMING_PARITY_POSITIONS_31_26.foldl
    (fun cw p => cw ||| (parityFold p cw <<< (p - 1))) cw1
  cw2 ||| ((countOnes cw2 % 2) <<< 31)

/-- `hamming_31_26_decode` from `src/error_correction.rs`. -/
def hamming_31_26_decode (code_word : Nat) : Nat × HammingStatus :=
  let hamming_code := code_word &&& BIT_MASK_31
  let original_parity := countOnes code_word % 2
  let syndrome := HAMMING_PARITY_POSITIONS_31_26.enum.foldl
    (fun syn ip => if parityFold ip.2 hamming_code ≠ 0 then syn ||| (1 <<< ip.1) else syn) 0
  let cs : Nat × HammingStatus :=
    if syndrome ≠ 0 then
      if original_parity ≠ 0 then
        (hamming_code ^^^ (1 <<< (syndrome - 1)), HammingStatus.CorrectedSingle)
      else
        (hamming_code, HammingStatus.Uncorrectable)
    else
      if original_parity ≠ 0 then (hamming_code, HammingStatus.CorrectedSingle)
      else (hamming_code, HammingStatus.NoError)
  let data := HAMMING_DATA_POSITIONS_31_26.enum.foldl
    (fun data io => data ||| (((cs.1 >>> io.2) &&& 1) <<< io.1)) 0
  (data, cs.2)

/-! ### Boolean XOR-fold machinery

`bitXorFold sel w l a` is the Boolean counterpart of the Nat-valued parity
accumulators in the Rust code: it XORs, над `a`, the bits of `w` at the
positions of `l` selected by `sel`. -/

def bitXorFold (sel : Nat → Prop) [DecidablePred sel] (w : Nat) (l : List Nat) (a : Bool) : Bool :=
  l.foldl (fun acc bit => if sel bit then acc ^^ w.testBit bit else acc) a

/-- The Boolean value of the Rust parity accumulator. -/
def parityBool (p w : Nat) : Bool :=
  bitXorFold (fun bit => (bit + 1) &&& p ≠ 0) w (List.range 31) false

/-- Even/odd parity of the 32 low bits of `w` (`count_ones % 2`). -/
def parity32 (w : Nat) : Bool :=
  bitXorFold (fun _ => True) w (List.range 32) false

theorem toNat_xor_toNat (a b : Bool) : a.toNat ^^^ b.toNat = (a ^^ b).toNat := by
  cases a <;> cases b <;> rfl

theorem shiftRight_and_one (w bit : Nat) : (w >>> bit) &&& 1 = (w.testBit bit).toNat := by
  rw [Nat.and_one_is_mod, Nat.shiftRight_eq_div_pow, Nat.testBit_to_div_mod]
  rcases Nat.mod_two_eq_zero_or_one (w / 2 ^ bit) with h | h <;> rw [h] <;> rfl

theorem bitXorFold_cons (sel : Nat → Prop) [DecidablePred sel] (w bit : Nat)
    (l : List Nat) (a : Bool) :
    bitXorFold sel w (bit :: l) a
      = bitXorFold sel w l (if sel bit then a ^^ w.testBit bit else a) := rfl

theorem natFold_eq_boolFold (sel : Nat → Prop) [DecidablePred sel] (w : Nat) :
    ∀ (l : List Nat) (a : Bool),
      l.foldl (fun acc bit => if sel bit then acc ^^^ ((w >>> bit) &&& 1) else acc) a.toNat
        = (bitXorFold sel w l a).toNat := by
  intro l
  induction l with
  | nil => intro a; rfl
  | cons bit l ih =>
    intro a
    rw [bitXorFold_cons]
    have hstep : List.foldl
        (fun acc bit => if sel bit then acc ^^^ ((w >>> bit) &&& 1) else acc)
        a.toNat (bit :: l)
        = List.foldl (fun acc bit => if sel bit then acc ^^^ ((w >>> bit) &&& 1) else acc)
          (if sel bit then a.toNat ^^^ ((w >>> bit) &&& 1) else a.toNat) l := rfl
    rw [hstep]
    by_cases h : sel bit
    · rw [if_pos h, if_pos h, shiftRight_and_one, toNat_xor_toNat]
      exact ih (a ^^ w.testBit bit)
    · rw [if_neg h, if_neg h]
      exact ih a

theorem parityFold_eq_toNat (p w : Nat) : parityFold p w = (parityBool p w).toNat := by
  unfold parityFold parityBool
  exact natFold_eq_boolFold _ w (List.range 31) false

theorem bitXorFold_acc (sel : Nat → Prop) [DecidablePred sel] (w : Nat) :
    ∀ (l : List Nat) (a : Bool),
      bitXorFold sel w l a = (a ^^ bitXorFold sel w l false) := by
  intro l
  induction l with
  | nil => intro a; cases a <;> rfl
  | cons bit l ih =>
    intro a
    rw [bitXorFold_cons, bitXorFold_cons, ih (if sel bit then a ^^ w.testBit bit else a),
      ih (if sel bit then false ^^ w.testBit bit else false)]
    by_cases h : sel bit
    · rw [if_pos h, if_pos h]
      cases a <;> cases w.testBit bit <;> cases bitXorFold sel w l false <;> rfl
    · rw [if_neg h, if_neg h]
      cases a <;> cases bitXorFold sel w l false <;> rfl

theorem bitXorFold_congr (sel : Nat → Prop) [DecidablePred sel] (x y : Nat) :
    ∀ (l : List Nat) (a : Bool), (∀ b ∈ l, x.testBit b = y.testBit b) →
      bitXorFold sel x l a = bitXorFold sel y l a := by
  intro l
  induction l with
  | nil => intro a _; rfl
  | cons bit l ih =>
    intro a hb
    rw [bitXorFold_cons, bitXorFold_cons, hb bit (by simp),
      ih _ (fun b h => hb b (by simp [h]))]

theorem bitXorFold_zero (sel : Nat → Prop) [DecidablePred sel] :
    ∀ (l : List Nat) (a : Bool), bitXorFold sel 0 l a = a := by
  intro l
  induction l with
  | nil => intro a; rfl
  | cons bit l ih =>
    intro a
    rw [bitXorFold_cons, Nat.zero_testBit]
    have h : (if sel bit then a ^^ false else a) = a := by
      by_cases hs : sel bit
      · rw [if_pos hs]; cases a <;> rfl
      · rw [if_neg hs]
    rw [h, ih]

theorem bitXorFold_xor (sel : Nat → Prop) [DecidablePred sel] (x y : Nat) :
    ∀ (l : List Nat), bitXorFold sel (x ^^^ y) l false
      = (bitXorFold sel x l false ^^ bitXorFold sel y l false) := by
  intro l
  induction l with
  | nil => rfl
  | cons bit l ih =>
    rw [bitXorFold_cons, bitXorFold_cons, bitXorFold_cons,
      bitXorFold_acc sel _ l, bitXorFold_acc sel x l, bitXorFold_acc sel y l,
      ih, Nat.testBit_xor]
    by_cases h : sel bit
    · rw [if_pos h, if_pos h, if_pos h]
      cases x.testBit bit <;> cases y.testBit bit <;>
        cases bitXorFold sel x l false <;> cases bitXorFold sel y l false <;> rfl
    · rw [if_neg h, if_neg h, if_neg h]
      cases bitXorFold sel x l false <;> cases bitXorFold sel y l false <;> rfl

theorem bitXorFold_no_bits (sel : Nat → Prop) [DecidablePred sel] (w : Nat) :
    ∀ (l : List Nat) (a : Bool), (∀ b ∈ l, w.testBit b = false) →
      bitXorFold sel w l a = a := by
  intro l
  induction l with
  | nil => intro a _; rfl
  | cons bit l ih =>
    intro a hb
    rw [bitXorFold_cons, hb bit (by simp)]
    have h : (if sel bit then a ^^ false else a) = a := by
      by_cases hs : sel bit
      · rw [if_pos hs]; cases a <;> rfl
      · rw [if_neg hs]
    rw [h, ih _ (fun b h => hb b (by simp [h]))]

theorem bitXorFold_two_pow (sel : Nat → Prop) [DecidablePred sel] (pos : Nat) :
    ∀ (l : List Nat), l.Nodup →
      bitXorFold sel (2 ^ pos) l false
        = (decide (pos ∈ l) && decide (sel pos)) := by
  intro l
  induction l with
  | nil => intro _; rfl
  | cons bit l ih =>
    intro hnd
    have hnd2 := (List.nodup_cons.mp hnd).2
    have hnmem := (List.nodup_cons.mp hnd).1
    rw [bitXorFold_cons, Nat.testBit_two_pow]
    by_cases hpb : pos = bit
    · subst hpb
      have hrest : ∀ b ∈ l, (2 ^ pos).testBit b = false := by
        intro b hbmem
        rw [Nat.testBit_two_pow]
        simp only [decide_eq_false_iff_not]
        intro hc
        exact hnmem (hc ▸ hbmem)
      have hdec : decide (pos = pos) = true := by simp
      rw [hdec, bitXorFold_no_bits sel _ l _ hrest]
      have hmem : decide (pos ∈ pos :: l) = true := by simp
      rw [hmem]
      by_cases hs : sel pos
      · rw [if_pos hs, decide_eq_true hs]; rfl
      · rw [if_neg hs, decide_eq_false hs]; rfl
    · have hd : decide (pos = bit) = false := decide_eq_false hpb
      rw [hd]
      have h : (if sel bit then false ^^ false else false) = false := by
        by_cases hs : sel bit
        · rw [if_pos hs]; rfl
        · rw [if_neg hs]
      rw [h, ih hnd2]
      have hmemiff : decide (pos ∈ bit :: l) = decide (pos ∈ l) := by
        simp [List.mem_cons, hpb]
      rw [hmemiff]

theorem countP_testBit_mod_two (w : Nat) :
    ∀ (l : List Nat), l.countP (fun i => w.testBit i) % 2
      = (bitXorFold (fun _ => True) w l false).toNat := by
  intro l
  induction l with
  | nil => rfl
  | cons bit l ih =>
    rw [List.countP_cons, bitXorFold_cons, if_pos trivial,
      bitXorFold_acc (fun _ => True) w l]
    rcases hb : w.testBit bit <;>
      rcases hf : bitXorFold (fun _ => True) w l false <;>
        rw [hf] at ih <;> simp at ih ⊢ <;> omega

theorem countOnes_mod_two (w : Nat) : countOnes w % 2 = (parity32 w).toNat := by
  unfold countOnes parity32
  exact countP_testBit_mod_two w (List.range 32)

/-! ### Placement folds and single-bit lemmas -/

theorem testBit_one' (m : Nat) : (1 : Nat).testBit m = decide (m = 0) := by
  have h : (1 : Nat) = 2 ^ 0 := rfl
  rw [h, Nat.testBit_two_pow]
  rcases Nat.eq_zero_or_pos m with h0 | h0
  · subst h0; simp
  · simp [Nat.ne_of_lt h0, Nat.ne_of_gt h0]

theorem testBit_place (d i off j : Nat) :
    ((((d >>> i) &&& 1) <<< off)).testBit j = (decide (j = off) && d.testBit i) := by
  rw [Nat.testBit_shiftLeft, Nat.testBit_and, Nat.testBit_shiftRight, testBit_one']
  by_cases hj : j = off
  · subst hj
    simp
  · rcases Nat.lt_or_ge j off with h | h
    · simp [Nat.not_le_of_lt h, hj]
    · have hne : j - off ≠ 0 := by omega
      simp [h, hj, hne]

theorem testBit_le_one_shift (v k j : Nat) (hv : v ≤ 1) (hjk : j ≠ k) :
    (v <<< k).testBit j = false := by
  rw [Nat.testBit_shiftLeft]
  rcases Nat.lt_or_ge j k with h | h
  · simp [Nat.not_le_of_lt h]
  · have hjge : 1 ≤ j - k := by omega
    have hvlt : v < 2 ^ (j - k) := by
      calc v ≤ 1 := hv
        _ < 2 ^ 1 := by norm_num
        _ ≤ 2 ^ (j - k) := Nat.pow_le_pow_right (by norm_num) hjge
    simp [h, Nat.testBit_lt_two_pow hvlt]

theorem testBit_toNat_zero (b : Bool) : (b.toNat).testBit 0 = b := by
  cases b <;> rfl

theorem testBit_shift_self (v k : Nat) : (v <<< k).testBit k = v.testBit 0 := by
  rw [Nat.testBit_shiftLeft]
  simp

theorem scatter_testBit (d : Nat) :
    ∀ (l : List (Nat × Nat)) (acc j : Nat),
      (l.foldl (fun cw io => cw ||| (((d >>> io.1) &&& 1) <<< io.2)) acc).testBit j
        = (acc.testBit j ||
            l.foldr (fun io b => (decide (j = io.2) && d.testBit io.1) || b) false) := by
  intro l
  induction l with
  | nil => intro acc j; simp
  | cons io l ih =>
    intro acc j
    have hstep : (io :: l).foldl (fun cw io => cw ||| (((d >>> io.1) &&& 1) <<< io.2)) acc
        = l.foldl (fun cw io => cw ||| (((d >>> io.1) &&& 1) <<< io.2))
            (acc ||| (((d >>> io.1) &&& 1) <<< io.2)) := rfl
    rw [hstep, ih, Nat.testBit_or, testBit_place]
    have hstep2 : (io :: l).foldr (fun io b => (decide (j = io.2) && d.testBit io.1) || b) false
        = ((decide (j = io.2) && d.testBit io.1) ||
            l.foldr (fun io b => (decide (j = io.2) && d.testBit io.1) || b) false) := rfl
    rw [hstep2, Bool.or_assoc]

theorem scatter_testBit_swap (d : Nat) :
    ∀ (l : List (Nat × Nat)) (acc j : Nat),
      (l.foldl (fun cw io => cw ||| (((d >>> io.2) &&& 1) <<< io.1)) acc).testBit j
        = (acc.testBit j ||
            l.foldr (fun io b => (decide (j = io.1) && d.testBit io.2) || b) false) := by
  intro l
  induction l with
  | nil => intro acc j; simp
  | cons io l ih =>
    intro acc j
    have hstep : (io :: l).foldl (fun cw io => cw ||| (((d >>> io.2) &&& 1) <<< io.1)) acc
        = l.foldl (fun cw io => cw ||| (((d >>> io.2) &&& 1) <<< io.1))
            (acc ||| (((d >>> io.2) &&& 1) <<< io.1)) := rfl
    rw [hstep, ih, Nat.testBit_or, testBit_place]
    have hstep2 : (io :: l).foldr (fun io b => (decide (j = io.1) && d.testBit io.2) || b) false
        = ((decide (j = io.1) && d.testBit io.2) ||
            l.foldr (fun io b => (decide (j = io.1) && d.testBit io.2) || b) false) := rfl
    rw [hstep2, Bool.or_assoc]

theorem lor_single_eq_xor (w v k : Nat) (hv : v ≤ 1) (hw : w.testBit k = false) :
    w ||| (v <<< k) = w ^^^ (v <<< k) := by
  apply Nat.eq_of_testBit_eq
  intro j
  rw [Nat.testBit_or, Nat.testBit_xor]
  by_cases hj : j = k
  · subst hj
    rw [hw]
    cases (v <<< j).testBit j <;> rfl
  · rw [testBit_le_one_shift v k j hv hj]
    cases w.testBit j <;> rfl

theorem scatter_lt (d B : Nat) :
    ∀ (l : List (Nat × Nat)) (acc : Nat), acc < 2 ^ B → (∀ io ∈ l, io.2 < B) →
      (l.foldl (fun cw io => cw ||| (((d >>> io.1) &&& 1) <<< io.2)) acc) < 2 ^ B := by
  intro l
  induction l with
  | nil => intro acc hacc _; exact hacc
  | cons io l ih =>
    intro acc hacc hl
    have hio : io.2 < B := hl io (by simp)
    have hbit : ((d >>> io.1) &&& 1) <<< io.2 < 2 ^ B := by
      have h1 : (d >>> io.1) &&& 1 ≤ 1 := by
        rw [Nat.and_one_is_mod]
        omega
      rw [Nat.shiftLeft_eq]
      calc ((d >>> io.1) &&& 1) * 2 ^ io.2 ≤ 1 * 2 ^ io.2 :=
            Nat.mul_le_mul_right _ h1
        _ = 2 ^ io.2 := by ring
        _ < 2 ^ B := Nat.pow_lt_pow_right (by norm_num) hio
    exact ih _ (Nat.or_lt_two_pow hacc hbit) (fun p hp => hl p (by simp [hp]))

theorem parityFold_le_one (p w : Nat) : parityFold p w ≤ 1 := by
  rw [parityFold_eq_toNat]
  cases parityBool p w <;> simp

theorem parityBool_toNat_shift (p : Nat) (b : Bool) (k : Nat) :
    parityBool p (b.toNat <<< k)
      = (b && (decide (k ∈ List.range 31) && decide ((k + 1) &&& p ≠ 0))) := by
  cases b
  · show parityBool p ((0 : Nat) <<< k) = false
    rw [Nat.zero_shiftLeft]
    unfold parityBool
    rw [bitXorFold_zero]
  · show parityBool p ((1 : Nat) <<< k) = _
    have h1 : (1 : Nat) <<< k = 2 ^ k := by rw [Nat.shiftLeft_eq, Nat.one_mul]
    unfold parityBool
    rw [h1, bitXorFold_two_pow _ _ _ (List.nodup_range 31)]
    simp

theorem parity32_toNat_shift (b : Bool) (k : Nat) :
    parity32 (b.toNat <<< k) = (b && decide (k ∈ List.range 32)) := by
  cases b
  · show parity32 ((0 : Nat) <<< k) = false
    rw [Nat.zero_shiftLeft]
    unfold parity32
    rw [bitXorFold_zero]
  · show parity32 ((1 : Nat) <<< k) = _
    have h1 : (1 : Nat) <<< k = 2 ^ k := by rw [Nat.shiftLeft_eq, Nat.one_mul]
    unfold parity32
    rw [h1, bitXorFold_two_pow _ _ _ (List.nodup_range 32)]
    simp

theorem parityBool_xor (p x y : Nat) :
    parityBool p (x ^^^ y) = (parityBool p x ^^ parityBool p y) := by
  unfold parityBool
  exact bitXorFold_xor _ x y (List.range 31)

theorem parity32_xor (x y : Nat) :
    parity32 (x ^^^ y) = (parity32 x ^^ parity32 y) := by
  unfold parity32
  exact bitXorFold_xor _ x y (List.range 32)

/-! ### Bit-level characterization of `hamming_31_26_encode` -/

/-- The code word with only the data bits placed (the value of `code_word`
before the parity loop in `hamming_31_26_encode`). -/
def hammingDataWord (d : Nat) : Nat :=
  HAMMING_DATA_POSITIONS_31_26.enum.foldl
    (fun cw io => cw ||| (((d >>> io.1) &&& 1) <<< io.2)) 0

theorem henum_data : HAMMING_DATA_POSITIONS_31_26.enum =
    [(0, 2), (1, 4), (2, 5), (3, 6), (4, 8), (5, 9), (6, 10), (7, 11), (8, 12),
      (9, 13), (10, 14), (11, 16), (12, 17), (13, 18), (14, 19), (15, 20),
      (16, 21), (17, 22), (18, 23), (19, 24), (20, 25), (21, 26), (22, 27),
      (23, 28), (24, 29), (25, 30)] := by rfl

theorem henum_parity : HAMMING_PARITY_POSITIONS_31_26.enum =
    [(0, 1), (1, 2), (2, 4), (3, 8), (4, 16)] := by rfl

theorem hammingDataWord_testBit (d j : Nat) :
    (hammingDataWord d).testBit j
      = HAMMING_DATA_POSITIONS_31_26.enum.foldr
          (fun io b => (decide (j = io.2) && d.testBit io.1) || b) false := by
  unfold hammingDataWord
  rw [scatter_testBit, Nat.zero_testBit, Bool.false_or]

theorem hammingDataWord_parity_bits (d : Nat) :
    (hammingDataWord d).testBit 0 = false ∧ (hammingDataWord d).testBit 1 = false ∧
    (hammingDataWord d).testBit 3 = false ∧ (hammingDataWord d).testBit 7 = false ∧
    (hammingDataWord d).testBit 15 = false ∧ (hammingDataWord d).testBit 31 = false := by
  refine ⟨?_, ?_, ?_, ?_, ?_, ?_⟩ <;> (rw [hammingDataWord_testBit, henum_data]; rfl)

theorem hammingDataWord_data_bits (d : Nat) :
    ∀ io ∈ HAMMING_DATA_POSITIONS_31_26.enum,
      (hammingDataWord d).testBit io.2 = d.testBit io.1 := by
  intro io hio
  rw [henum_data] at hio
  fin_cases hio <;> (rw [hammingDataWord_testBit, henum_data]; exact Bool.or_false _)

theorem hammingDataWord_lt (d : Nat) : hammingDataWord d < 2 ^ 31 := by
  unfold hammingDataWord
  apply scatter_lt
  · norm_num
  · intro io hio
    rw [henum_data] at hio
    fin_cases hio <;> decide

theorem parityBool_toNat_shift_in (p : Nat) (b : Bool) (k : Nat)
    (hk : k ∈ List.range 31) (hp : (k + 1) &&& p ≠ 0) :
    parityBool p (b.toNat <<< k) = b := by
  rw [parityBool_toNat_shift, decide_eq_true hk, decide_eq_true hp]
  cases b <;> rfl

theorem parityBool_toNat_shift_out (p : Nat) (b : Bool) (k : Nat)
    (h : ¬ (k ∈ List.range 31) ∨ (k + 1) &&& p = 0) :
    parityBool p (b.toNat <<< k) = false := by
  rw [parityBool_toNat_shift]
  rcases h with h | h
  · rw [decide_eq_false h, Bool.false_and, Bool.and_false]
  · have hnp : ¬ ((k + 1) &&& p ≠ 0) := by omega
    rw [decide_eq_false hnp, Bool.and_false, Bool.and_false]

theorem parity32_toNat_shift_in (b : Bool) (k : Nat) (hk : k ∈ List.range 32) :
    parity32 (b.toNat <<< k) = b := by
  rw [parity32_toNat_shift, decide_eq_true hk]
  cases b <;> rfl

theorem toNat_le_one (b : Bool) : b.toNat ≤ 1 := by cases b <;> simp

/-- Full bit-level characterization of the encoder output: all five Hamming
parity groups XOR to zero, the overall parity is even, the data bits sit at
their positions, and the word fits in 32 bits. -/
theorem hamming_encode_char (d0 : Nat) :
    parityBool 1 (hamming_31_26_encode d0) = false ∧
    parityBool 2 (hamming_31_26_encode d0) = false ∧
    parityBool 4 (hamming_31_26_encode d0) = false ∧
    parityBool 8 (hamming_31_26_encode d0) = false ∧
    parityBool 16 (hamming_31_26_encode d0) = false ∧
    parity32 (hamming_31_26_encode d0) = false ∧
    (∀ io ∈ HAMMING_DATA_POSITIONS_31_26.enum,
      (hamming_31_26_encode d0).testBit io.2 = (d0 &&& BIT_MASK_26).testBit io.1) ∧
    hamming_31_26_encode d0 < 2 ^ 32 := by
  set d := d0 &&& BIT_MASK_26 with hd
  set W0 := hammingDataWord d with hW0def
  obtain ⟨hbit0, hbit1, hbit3, hbit7, hbit15, hbit31⟩ := hammingDataWord_parity_bits d
  set A1 := W0 ||| (parityFold 1 W0 <<< 0) with hA1
  set A2 := A1 ||| (parityFold 2 A1 <<< 1) with hA2
  set A3 := A2 ||| (parityFold 4 A2 <<< 3) with hA3
  set A4 := A3 ||| (parityFold 8 A3 <<< 7) with hA4
  set A5 := A4 ||| (parityFold 16 A4 <<< 15) with hA5
  have hunfold : hamming_31_26_encode d0 = A5 ||| ((countOnes A5 % 2) <<< 31) := by
    rw [hA5, hA4, hA3, hA2, hA1, hW0def, hd]
    rfl
  set b1 := parityBool 1 W0 with hb1d
  have hA1x : A1 = W0 ^^^ (b1.toNat <<< 0) := by
    rw [hA1, parityFold_eq_toNat, ← hb1d]
    exact lor_single_eq_xor _ _ _ (toNat_le_one _) hbit0
  have hA1bits : ∀ j, j ≠ 0 → A1.testBit j = W0.testBit j := by
    intro j hj
    rw [hA1x, Nat.testBit_xor, testBit_le_one_shift _ _ _ (toNat_le_one _) hj]
    cases W0.testBit j <;> rfl
  set b2 := parityBool 2 A1 with hb2d
  have hA2x : A2 = A1 ^^^ (b2.toNat <<< 1) := by
    rw [hA2, parityFold_eq_toNat, ← hb2d]
    exact lor_single_eq_xor _ _ _ (toNat_le_one _)
      (by rw [hA1bits 1 (by omega)]; exact hbit1)
  have hA2bits : ∀ j, j ≠ 1 → A2.testBit j = A1.testBit j := by
    intro j hj
    rw [hA2x, Nat.testBit_xor, testBit_le_one_shift _ _ _ (toNat_le_one _) hj]
    cases A1.testBit j <;> rfl
  set b4 := parityBool 4 A2 with hb4d
  have hA3x : A3 = A2 ^^^ (b4.toNat <<< 3) := by
    rw [hA3, parityFold_eq_toNat, ← hb4d]
    exact lor_single_eq_xor _ _ _ (toNat_le_one _)
      (by rw [hA2bits 3 (by omega), hA1bits 3 (by omega)]; exact hbit3)
  have hA3bits : ∀ j, j ≠ 3 → A3.testBit j = A2.testBit j := by
    intro j hj
    rw [hA3x, Nat.testBit_xor, testBit_le_one_shift _ _ _ (toNat_le_one _) hj]
    cases A2.testBit j <;> rfl
  set b8 := parityBool 8 A3 with hb8d
  have hA4x : A4 = A3 ^^^ (b8.toNat <<< 7) := by
    rw [hA4, parityFold_eq_toNat, ← hb8d]
    exact lor_single_eq_xor _ _ _ (toNat_le_one _)
      (by rw [hA3bits 7 (by omega), hA2bits 7 (by omega), hA1bits 7 (by omega)]
          exact hbit7)
  have hA4bits : ∀ j, j ≠ 7 → A4.testBit j = A3.testBit j := by
    intro j hj
    rw [hA4x, Nat.testBit_xor, testBit_le_one_shift _ _ _ (toNat_le_one _) hj]
    cases A3.testBit j <;> rfl
  set b16 := parityBool 16 A4 with hb16d
  have hA5x : A5 = A4 ^^^ (b16.toNat <<< 15) := by
    rw [hA5, parityFold_eq_toNat, ← hb16d]
    exact lor_single_eq_xor _ _ _ (toNat_le_one _)
      (by rw [hA4bits 15 (by omega), hA3bits 15 (by omega), hA2bits 15 (by omega),
              hA1bits 15 (by omega)]
          exact hbit15)
  have hA5bits : ∀ j, j ≠ 15 → A5.testBit j = A4.testBit j := by
    intro j hj
    rw [hA5x, Nat.testBit_xor, testBit_le_one_shift _ _ _ (toNat_le_one _) hj]
    cases A4.testBit j <;> rfl
  set bo := parity32 A5 with hbod
  have hEncx : hamming_31_26_encode d0 = A5 ^^^ (bo.toNat <<< 31) := by
    rw [hunfold, countOnes_mod_two, ← hbod]
    refine lor_single_eq_xor _ _ _ (toNat_le_one _) ?_
    rw [hA5bits 31 (by omega), hA4bits 31 (by omega), hA3bits 31 (by omega),
      hA2bits 31 (by omega), hA1bits 31 (by omega)]
    exact hbit31
  have hp1 : parityBool 1 (hamming_31_26_encode d0) = false := by
    rw [hEncx, parityBool_xor, parityBool_toNat_shift_out 1 bo 31 (Or.inl (by decide)),
      Bool.xor_false,
      hA5x, parityBool_xor, parityBool_toNat_shift_out 1 b16 15 (Or.inr (by decide)),
      Bool.xor_false,
      hA4x, parityBool_xor, parityBool_toNat_shift_out 1 b8 7 (Or.inr (by decide)),
      Bool.xor_false,
      hA3x, parityBool_xor, parityBool_toNat_shift_out 1 b4 3 (Or.inr (by decide)),
      Bool.xor_false,
      hA2x, parityBool_xor, parityBool_toNat_shift_out 1 b2 1 (Or.inr (by decide)),
      Bool.xor_false,
      hA1x, parityBool_xor, parityBool_toNat_shift_in 1 b1 0 (by decide) (by decide),
      ← hb1d, Bool.xor_self]
  have hp2 : parityBool 2 (hamming_31_26_encode d0) = false := by
    rw [hEncx, parityBool_xor, parityBool_toNat_shift_out 2 bo 31 (Or.inl (by decide)),
      Bool.xor_false,
      hA5x, parityBool_xor, parityBool_toNat_shift_out 2 b16 15 (Or.inr (by decide)),
      Bool.xor_false,
      hA4x, parityBool_xor, parityBool_toNat_shift_out 2 b8 7 (Or.inr (by decide)),
      Bool.xor_false,
      hA3x, parityBool_xor, parityBool_toNat_shift_out 2 b4 3 (Or.inr (by decide)),
      Bool.xor_false,
      hA2x, parityBool_xor, parityBool_toNat_shift_in 2 b2 1 (by decide) (by decide),
      ← hb2d, Bool.xor_self]
  have hp4 : parityBool 4 (hamming_31_26_encode d0) = false := by
    rw [hEncx, parityBool_xor, parityBool_toNat_shift_out 4 bo 31 (Or.inl (by decide)),
      Bool.xor_false,
      hA5x, parityBool_xor, parityBool_toNat_shift_out 4 b16 15 (Or.inr (by decide)),
      Bool.xor_false,
      hA4x, parityBool_xor, parityBool_toNat_shift_out 4 b8 7 (Or.inr (by decide)),
      Bool.xor_false,
      hA3x, parityBool_xor, parityBool_toNat_shift_in 4 b4 3 (by decide) (by decide),
      ← hb4d, Bool.xor_self]
  have hp8 : parityBool 8 (hamming_31_26_encode d0) = false := by
    rw [hEncx, parityBool_xor, parityBool_toNat_shift_out 8 bo 31 (Or.inl (by decide)),
      Bool.xor_false,
      hA5x, parityBool_xor, parityBool_toNat_shift_out 8 b16 15 (Or.inr (by decide)),
      Bool.xor_false,
      hA4x, parityBool_xor, parityBool_toNat_shift_in 8 b8 7 (by decide) (by decide),
      ← hb8d, Bool.xor_self]
  have hp16 : parityBool 16 (hamming_31_26_encode d0) = false := by
    rw [hEncx, parityBool_xor, parityBool_toNat_shift_out 16 bo 31 (Or.inl (by decide)),
      Bool.xor_false,
      hA5x, parityBool_xor, parityBool_toNat_shift_in 16 b16 15 (by decide) (by decide),
      ← hb16d, Bool.xor_self]
  have hpar : parity32 (hamming_31_26_encode d0) = false := by
    rw [hEncx, parity32_xor, parity32_toNat_shift_in bo 31 (by decide),
      ← hbod, Bool.xor_self]
  have hdata : ∀ io ∈ HAMMING_DATA_POSITIONS_31_26.enum,
      (hamming_31_26_encode d0).testBit io.2 = d.testBit io.1 := by
    have hchain : ∀ j, j ≠ 0 → j ≠ 1 → j ≠ 3 → j ≠ 7 → j ≠ 15 → j ≠ 31 →
        (hamming_31_26_encode d0).testBit j = W0.testBit j := by
      intro j h0 h1 h3 h7 h15 h31
      rw [hEncx, Nat.testBit_xor, testBit_le_one_shift _ _ _ (toNat_le_one _) h31,
        hA5bits j h15, hA4bits j h7, hA3bits j h3, hA2bits j h1, hA1bits j h0]
      cases W0.testBit j <;> rfl
    intro io hio
    rw [henum_data] at hio
    fin_cases hio <;>
      (rw [hchain _ (by decide) (by decide) (by decide) (by decide) (by decide) (by decide)]
       exact hammingDataWord_data_bits d _ (by decide))
  have hlt : hamming_31_26_encode d0 < 2 ^ 32 := by
    have hW0lt : W0 < 2 ^ 31 := hammingDataWord_lt d
    have hsh : ∀ (v k : Nat), v ≤ 1 → k ≤ 30 → v <<< k < 2 ^ 31 := by
      intro v k hv hk
      rw [Nat.shiftLeft_eq]
      calc v * 2 ^ k ≤ 1 * 2 ^ k := Nat.mul_le_mul_right _ hv
        _ = 2 ^ k := by ring
        _ ≤ 2 ^ 30 := Nat.pow_le_pow_right (by norm_num) hk
        _ < 2 ^ 31 := by norm_num
    have hA1lt : A1 < 2 ^ 31 := by
      rw [hA1]
      exact Nat.or_lt_two_pow hW0lt (hsh _ _ (parityFold_le_one _ _) (by omega))
    have hA2lt : A2 < 2 ^ 31 := by
      rw [hA2]
      exact Nat.or_lt_two_pow hA1lt (hsh _ _ (parityFold_le_one _ _) (by omega))
    have hA3lt : A3 < 2 ^ 31 := by
      rw [hA3]
      exact Nat.or_lt_two_pow hA2lt (hsh _ _ (parityFold_le_one _ _) (by omega))
    have hA4lt : A4 < 2 ^ 31 := by
      rw [hA4]
      exact Nat.or_lt_two_pow hA3lt (hsh _ _ (parityFold_le_one _ _) (by omega))
    have hA5lt : A5 < 2 ^ 31 := by
      rw [hA5]
      exact Nat.or_lt_two_pow hA4lt (hsh _ _ (parityFold_le_one _ _) (by omega))
    rw [hunfold]
    refine Nat.or_lt_two_pow (by omega) ?_
    rw [Nat.shiftLeft_eq]
    have : countOnes A5 % 2 ≤ 1 := by omega
    calc countOnes A5 % 2 * 2 ^ 31 ≤ 1 * 2 ^ 31 := Nat.mul_le_mul_right _ this
      _ < 2 ^ 32 := by norm_num
  exact ⟨hp1, hp2, hp4, hp8, hp16, hpar, hdata, hlt⟩

/-! ### Decoder evaluation -/

theorem BIT_MASK_31_eq : BIT_MASK_31 = 2 ^ 31 - 1 := by rfl

theorem BIT_MASK_26_eq : BIT_MASK_26 = 2 ^ 26 - 1 := by rfl

theorem mask31_testBit (w j : Nat) (hj : j < 31) :
    (w &&& BIT_MASK_31).testBit j = w.testBit j := by
  rw [Nat.testBit_and, BIT_MASK_31_eq, Nat.testBit_two_pow_sub_one,
    decide_eq_true hj, Bool.and_true]

theorem parityBool_mask31 (p w : Nat) :
    parityBool p (w &&& BIT_MASK_31) = parityBool p w := by
  unfold parityBool
  apply bitXorFold_congr
  intro b hb
  rw [List.mem_range] at hb
  exact mask31_testBit w b (by omega)

/-- The value of `syndrome` in `hamming_31_26_decode`. -/
def syndromeNat (h : Nat) : Nat :=
  HAMMING_PARITY_POSITIONS_31_26.enum.foldl
    (fun syn ip => if parityFold ip.2 h ≠ 0 then syn ||| (1 <<< ip.1) else syn) 0

/-- The value of the `(corrected, status)` pair in `hamming_31_26_decode`,
as a function of the code word and the syndrome. -/
def decodeCS (w s : Nat) : Nat × HammingStatus :=
  if s ≠ 0 then
    if countOnes w % 2 ≠ 0 then
      ((w &&& BIT_MASK_31) ^^^ (1 <<< (s - 1)), HammingStatus.CorrectedSingle)
    else (w &&& BIT_MASK_31, HammingStatus.Uncorrectable)
  else
    if countOnes w % 2 ≠ 0 then (w &&& BIT_MASK_31, HammingStatus.CorrectedSingle)
    else (w &&& BIT_MASK_31, HammingStatus.NoError)

/-- The data-bit extraction loop at the end of `hamming_31_26_decode`. -/
def extractData (src : Nat) : Nat :=
  HAMMING_DATA_POSITIONS_31_26.enum.foldl
    (fun data io => data ||| (((src >>> io.2) &&& 1) <<< io.1)) 0

theorem hamming_decode_eq (w : Nat) :
    hamming_31_26_decode w
      = (extractData (decodeCS w (syndromeNat (w &&& BIT_MASK_31))).1,
         (decodeCS w (syndromeNat (w &&& BIT_MASK_31))).2) := rfl

theorem syndromeNat_ifs (b0 b1 b2 b3 b4 : Bool) :
    (let s1 := if b0.toNat ≠ 0 then (0 : Nat) ||| (1 <<< 0) else 0
     let s2 := if b1.toNat ≠ 0 then s1 ||| (1 <<< 1) else s1
     let s3 := if b2.toNat ≠ 0 then s2 ||| (1 <<< 2) else s2
     let s4 := if b3.toNat ≠ 0 then s3 ||| (1 <<< 3) else s3
     if b4.toNat ≠ 0 then s4 ||| (1 <<< 4) else s4)
      = b0.toNat + 2 * b1.toNat + 4 * b2.toNat + 8 * b3.toNat + 16 * b4.toNat := by
  cases b0 <;> cases b1 <;> cases b2 <;> cases b3 <;> cases b4 <;> rfl

theorem testBit_toNat_div_mod (s k : Nat) : (s.testBit k).toNat = s / 2 ^ k % 2 := by
  rw [Nat.testBit_to_div_mod]
  rcases Nat.mod_two_eq_zero_or_one (s / 2 ^ k) with h | h <;> rw [h] <;> rfl

theorem testBits_sum (s : Nat) (hs : s < 32) :
    (s.testBit 0).toNat + 2 * (s.testBit 1).toNat + 4 * (s.testBit 2).toNat
      + 8 * (s.testBit 3).toNat + 16 * (s.testBit 4).toNat = s := by
  rw [testBit_toNat_div_mod, testBit_toNat_div_mod, testBit_toNat_div_mod,
    testBit_toNat_div_mod, testBit_toNat_div_mod,
    show (2 : Nat) ^ 0 = 1 from rfl, show (2 : Nat) ^ 1 = 2 from rfl,
    show (2 : Nat) ^ 2 = 4 from rfl, show (2 : Nat) ^ 3 = 8 from rfl,
    show (2 : Nat) ^ 4 = 16 from rfl]
  omega

theorem syndromeNat_eval (h s : Nat) (hs : s < 32)
    (h1 : parityBool 1 h = s.testBit 0) (h2 : parityBool 2 h = s.testBit 1)
    (h4 : parityBool 4 h = s.testBit 2) (h8 : parityBool 8 h = s.testBit 3)
    (h16 : parityBool 16 h = s.testBit 4) :
    syndromeNat h = s := by
  unfold syndromeNat
  rw [henum_parity]
  show (let s1 := if parityFold 1 h ≠ 0 then (0 : Nat) ||| (1 <<< 0) else 0
        let s2 := if parityFold 2 h ≠ 0 then s1 ||| (1 <<< 1) else s1
        let s3 := if parityFold 4 h ≠ 0 then s2 ||| (1 <<< 2) else s2
        let s4 := if parityFold 8 h ≠ 0 then s3 ||| (1 <<< 3) else s3
        if parityFold 16 h ≠ 0 then s4 ||| (1 <<< 4) else s4) = s
  rw [parityFold_eq_toNat, parityFold_eq_toNat, parityFold_eq_toNat,
    parityFold_eq_toNat, parityFold_eq_toNat, h1, h2, h4, h8, h16,
    syndromeNat_ifs, testBits_sum s hs]

theorem decodeCS_noerr (w : Nat) (hp : countOnes w % 2 = 0) :
    decodeCS w 0 = (w &&& BIT_MASK_31, HammingStatus.NoError) := by
  unfold decodeCS
  rw [if_neg (show ¬ (0 : Nat) ≠ 0 by omega), hp,
    if_neg (show ¬ (0 : Nat) ≠ 0 by omega)]

theorem decodeCS_single_parity (w : Nat) (hp : countOnes w % 2 = 1) :
    decodeCS w 0 = (w &&& BIT_MASK_31, HammingStatus.CorrectedSingle) := by
  unfold decodeCS
  rw [if_neg (show ¬ (0 : Nat) ≠ 0 by omega), hp,
    if_pos (show (1 : Nat) ≠ 0 by omega)]

theorem decodeCS_single_data (w s : Nat) (hs : s ≠ 0) (hp : countOnes w % 2 = 1) :
    decodeCS w s
      = ((w &&& BIT_MASK_31) ^^^ (1 <<< (s - 1)), HammingStatus.CorrectedSingle) := by
  unfold decodeCS
  rw [if_pos hs, hp, if_pos (show (1 : Nat) ≠ 0 by omega)]

theorem decodeCS_double (w s : Nat) (hs : s ≠ 0) (hp : countOnes w % 2 = 0) :
    decodeCS w s = (w &&& BIT_MASK_31, HammingStatus.Uncorrectable) := by
  unfold decodeCS
  rw [if_pos hs, hp, if_neg (show ¬ (0 : Nat) ≠ 0 by omega)]

theorem extractData_eq (src t : Nat) (ht : t < 2 ^ 26)
    (hb : ∀ io ∈ HAMMING_DATA_POSITIONS_31_26.enum, src.testBit io.2 = t.testBit io.1) :
    extractData src = t := by
  apply Nat.eq_of_testBit_eq
  intro j
  unfold extractData
  rw [scatter_testBit_swap, Nat.zero_testBit, Bool.false_or, henum_data]
  have e0 : src.testBit 2 = t.testBit 0 := hb (0, 2) (by decide)
  have e1 : src.testBit 4 = t.testBit 1 := hb (1, 4) (by decide)
  have e2 : src.testBit 5 = t.testBit 2 := hb (2, 5) (by decide)
  have e3 : src.testBit 6 = t.testBit 3 := hb (3, 6) (by decide)
  have e4 : src.testBit 8 = t.testBit 4 := hb (4, 8) (by decide)
  have e5 : src.testBit 9 = t.testBit 5 := hb (5, 9) (by decide)
  have e6 : src.testBit 10 = t.testBit 6 := hb (6, 10) (by decide)
  have e7 : src.testBit 11 = t.testBit 7 := hb (7, 11) (by decide)
  have e8 : src.testBit 12 = t.testBit 8 := hb (8, 12) (by decide)
  have e9 : src.testBit 13 = t.testBit 9 := hb (9, 13) (by decide)
  have e10 : src.testBit 14 = t.testBit 10 := hb (10, 14) (by decide)
  have e11 : src.testBit 16 = t.testBit 11 := hb (11, 16) (by decide)
  have e12 : src.testBit 17 = t.testBit 12 := hb (12, 17) (by decide)
  have e13 : src.testBit 18 = t.testBit 13 := hb (13, 18) (by decide)
  have e14 : src.testBit 19 = t.testBit 14 := hb (14, 19) (by decide)
  have e15 : src.testBit 20 = t.testBit 15 := hb (15, 20) (by decide)
  have e16 : src.testBit 21 = t.testBit 16 := hb (16, 21) (by decide)
  have e17 : src.testBit 22 = t.testBit 17 := hb (17, 22) (by decide)
  have e18 : src.testBit 23 = t.testBit 18 := hb (18, 23) (by decide)
  have e19 : src.testBit 24 = t.testBit 19 := hb (19, 24) (by decide)
  have e20 : src.testBit 25 = t.testBit 20 := hb (20, 25) (by decide)
  have e21 : src.testBit 26 = t.testBit 21 := hb (21, 26) (by decide)
  have e22 : src.testBit 27 = t.testBit 22 := hb (22, 27) (by decide)
  have e23 : src.testBit 28 = t.testBit 23 := hb (23, 28) (by decide)
  have e24 : src.testBit 29 = t.testBit 24 := hb (24, 29) (by decide)
  have e25 : src.testBit 30 = t.testBit 25 := hb (25, 30) (by decide)
  simp only [List.foldr_cons, List.foldr_nil]
  rw [e0, e1, e2, e3, e4, e5, e6, e7, e8, e9, e10, e11, e12, e13, e14, e15,
    e16, e17, e18, e19, e20, e21, e22, e23, e24, e25]
  rcases Nat.lt_or_ge j 26 with hj | hj
  · interval_cases j <;> exact Bool.or_false _
  · have ht' : t.testBit j = false :=
      Nat.testBit_lt_two_pow
        (lt_of_lt_of_le ht (Nat.pow_le_pow_right (by norm_num) hj))
    rw [ht']
    have hne : ∀ c : Nat, c < 26 → decide (j = c) = false := by
      intro c hc
      exact decide_eq_false (by omega)
    rw [hne 0 (by norm_num), hne 1 (by norm_num), hne 2 (by norm_num),
      hne 3 (by norm_num), hne 4 (by norm_num), hne 5 (by norm_num),
      hne 6 (by norm_num), hne 7 (by norm_num), hne 8 (by norm_num),
      hne 9 (by norm_num), hne 10 (by norm_num), hne 11 (by norm_num),
      hne 12 (by norm_num), hne 13 (by norm_num), hne 14 (by norm_num),
      hne 15 (by norm_num), hne 16 (by norm_num), hne 17 (by norm_num),
      hne 18 (by norm_num), hne 19 (by norm_num), hne 20 (by norm_num),
      hne 21 (by norm_num), hne 22 (by norm_num), hne 23 (by norm_num),
      hne 24 (by norm_num), hne 25 (by norm_num)]
    rfl

/-! ### The three codeword-level theorems -/

theorem one_shiftLeft' (n : Nat) : (1 : Nat) <<< n = 2 ^ n := by
  rw [Nat.shiftLeft_eq, Nat.one_mul]

theorem mask26_of_lt (d : Nat) (hd : d < 2 ^ 26) : d &&& BIT_MASK_26 = d := by
  rw [BIT_MASK_26_eq, Nat.and_pow_two_sub_one_eq_mod, Nat.mod_eq_of_lt hd]

theorem and_two_pow_decide (x k : Nat) : decide (x &&& 2 ^ k ≠ 0) = x.testBit k := by
  rcases hb : x.testBit k
  · apply decide_eq_false
    intro hne
    apply hne
    apply Nat.eq_of_testBit_eq
    intro j
    rw [Nat.testBit_and, Nat.testBit_two_pow, Nat.zero_testBit]
    by_cases hj : j = k
    · subst hj
      rw [hb]
      rfl
    · rw [decide_eq_false (fun hc => hj hc.symm), Bool.and_false]
  · apply decide_eq_true
    intro h0
    have hk : (x &&& 2 ^ k).testBit k = true := by
      rw [Nat.testBit_and, hb, Nat.testBit_two_pow, decide_eq_true rfl]
      rfl
    rw [h0, Nat.zero_testBit] at hk
    exact Bool.false_ne_true hk

theorem xor_ne_zero_of_ne (a b : Nat) (h : a ≠ b) : a ^^^ b ≠ 0 := by
  intro h0
  apply h
  have h1 : a = (a ^^^ b) ^^^ b := by
    rw [Nat.xor_assoc, Nat.xor_self, Nat.xor_zero]
  rw [h0, Nat.zero_xor] at h1
  exact h1

theorem data_off_lt (io : Nat × Nat)
    (hio : io ∈ HAMMING_DATA_POSITIONS_31_26.enum) : io.2 < 31 := by
  rw [henum_data] at hio
  fin_cases hio <;> decide

theorem parity32_two_pow (pos : Nat) (hpos : pos < 32) :
    parity32 (2 ^ pos) = true := by
  unfold parity32
  rw [bitXorFold_two_pow _ _ _ (List.nodup_range 32),
    decide_eq_true (List.mem_range.mpr hpos)]
  rfl

theorem parityBool_two_pow_lt (p pos : Nat) (hpos : pos < 31) :
    parityBool p (2 ^ pos) = decide ((pos + 1) &&& p ≠ 0) := by
  unfold parityBool
  rw [bitXorFold_two_pow _ _ _ (List.nodup_range 31),
    decide_eq_true (List.mem_range.mpr hpos), Bool.true_and]

theorem parityBool_two_pow_31 (p : Nat) : parityBool p (2 ^ 31) = false := by
  unfold parityBool
  rw [bitXorFold_two_pow _ _ _ (List.nodup_range 31),
    decide_eq_false (by decide : ¬ (31 ∈ List.range 31)), Bool.false_and]

/-- Noise-free round trip of a single Hamming(31,26) code word. -/
theorem hamming_decode_encode (d : Nat) :
    hamming_31_26_decode (hamming_31_26_encode d)
      = (d &&& BIT_MASK_26, HammingStatus.NoError) := by
  obtain ⟨hp1, hp2, hp4, hp8, hp16, hpar, hdata, hlt⟩ := hamming_encode_char d
  set E := hamming_31_26_encode d with hE
  have hsy : syndromeNat (E &&& BIT_MASK_31) = 0 :=
    syndromeNat_eval _ 0 (by norm_num)
      (by rw [parityBool_mask31, hp1, Nat.zero_testBit])
      (by rw [parityBool_mask31, hp2, Nat.zero_testBit])
      (by rw [parityBool_mask31, hp4, Nat.zero_testBit])
      (by rw [parityBool_mask31, hp8, Nat.zero_testBit])
      (by rw [parityBool_mask31, hp16, Nat.zero_testBit])
  have hpn : countOnes E % 2 = 0 := by
    rw [countOnes_mod_two, hpar]
    rfl
  rw [hamming_decode_eq, hsy, decodeCS_noerr E hpn]
  show (extractData (E &&& BIT_MASK_31), HammingStatus.NoError) = _
  have hx : extractData (E &&& BIT_MASK_31) = d &&& BIT_MASK_26 := by
    apply extractData_eq
    · rw [BIT_MASK_26_eq, Nat.and_pow_two_sub_one_eq_mod]
      exact Nat.mod_lt _ (by norm_num)
    · intro io hio
      rw [mask31_testBit _ _ (data_off_lt io hio)]
      exact hdata io hio
  rw [hx]

/-- Claim C3: Hamming single-error correction.  For every 26-bit data value
`d` and every bit position `pos` in `[0, 31]` (the overall parity bit 31
included), flipping bit `pos` of `hamming_31_26_encode d` and decoding yields
the original data bits `d` and the status `CorrectedSingle` (the status that
`decode_with_hamming_31_26` tallies as one corrected error). -/
theorem hamming_decode_single_flip (d pos : Nat) (hd : d < 2 ^ 26) (hpos : pos < 32) :
    hamming_31_26_decode (hamming_31_26_encode d ^^^ (1 <<< pos))
      = (d, HammingStatus.CorrectedSingle) := by
  obtain ⟨hp1, hp2, hp4, hp8, hp16, hpar, hdata, hlt⟩ := hamming_encode_char d
  rw [mask26_of_lt d hd] at hdata
  set E := hamming_31_26_encode d with hE
  rw [one_shiftLeft']
  set w := E ^^^ 2 ^ pos with hw
  have hparw : countOnes w % 2 = 1 := by
    rw [countOnes_mod_two, hw, parity32_xor, hpar, Bool.false_xor,
      parity32_two_pow pos hpos]
    rfl
  rcases Nat.lt_or_ge pos 31 with h31 | h31
  · have hs1 : parityBool 1 (w &&& BIT_MASK_31) = (pos + 1).testBit 0 := by
      rw [parityBool_mask31, hw, parityBool_xor, hp1, Bool.false_xor,
        parityBool_two_pow_lt 1 pos h31]
      exact and_two_pow_decide (pos + 1) 0
    have hs2 : parityBool 2 (w &&& BIT_MASK_31) = (pos + 1).testBit 1 := by
      rw [parityBool_mask31, hw, parityBool_xor, hp2, Bool.false_xor,
        parityBool_two_pow_lt 2 pos h31]
      exact and_two_pow_decide (pos + 1) 1
    have hs4 : parityBool 4 (w &&& BIT_MASK_31) = (pos + 1).testBit 2 := by
      rw [parityBool_mask31, hw, parityBool_xor, hp4, Bool.false_xor,
        parityBool_two_pow_lt 4 pos h31]
      exact and_two_pow_decide (pos + 1) 2
    have hs8 : parityBool 8 (w &&& BIT_MASK_31) = (pos + 1).testBit 3 := by
      rw [parityBool_mask31, hw, parityBool_xor, hp8, Bool.false_xor,
        parityBool_two_pow_lt 8 pos h31]
      exact and_two_pow_decide (pos + 1) 3
    have hs16 : parityBool 16 (w &&& BIT_MASK_31) = (pos + 1).testBit 4 := by
      rw [parityBool_mask31, hw, parityBool_xor, hp16, Bool.false_xor,
        parityBool_two_pow_lt 16 pos h31]
      exact and_two_pow_decide (pos + 1) 4
    have hsy : syndromeNat (w &&& BIT_MASK_31) = pos + 1 :=
      syndromeNat_eval _ (pos + 1) (by omega) hs1 hs2 hs4 hs8 hs16
    rw [hamming_decode_eq, hsy, decodeCS_single_data w (pos + 1) (by omega) hparw]
    show (extractData ((w &&& BIT_MASK_31) ^^^ (1 <<< (pos + 1 - 1))),
      HammingStatus.CorrectedSingle) = _
    have hx : extractData ((w &&& BIT_MASK_31) ^^^ (1 <<< (pos + 1 - 1))) = d := by
      apply extractData_eq _ _ hd
      intro io hio
      rw [Nat.testBit_xor, one_shiftLeft',
        show pos + 1 - 1 = pos from rfl,
        mask31_testBit _ _ (data_off_lt io hio), hw, Nat.testBit_xor,
        Bool.xor_assoc, Bool.xor_self, Bool.xor_false]
      exact hdata io hio
    rw [hx]
  · have h31' : pos = 31 := by omega
    subst h31'
    have hsingle : ∀ p : Nat, parityBool p (w &&& BIT_MASK_31) = parityBool p E := by
      intro p
      rw [parityBool_mask31, hw, parityBool_xor, parityBool_two_pow_31 p,
        Bool.xor_false]
    have hsy : syndromeNat (w &&& BIT_MASK_31) = 0 :=
      syndromeNat_eval _ 0 (by norm_num)
        (by rw [hsingle, hp1, Nat.zero_testBit])
        (by rw [hsingle, hp2, Nat.zero_testBit])
        (by rw [hsingle, hp4, Nat.zero_testBit])
        (by rw [hsingle, hp8, Nat.zero_testBit])
        (by rw [hsingle, hp16, Nat.zero_testBit])
    rw [hamming_decode_eq, hsy, decodeCS_single_parity w hparw]
    show (extractData (w &&& BIT_MASK_31), HammingStatus.CorrectedSingle) = _
    have hx : extractData (w &&& BIT_MASK_31) = d := by
      apply extractData_eq _ _ hd
      intro io hio
      have hne : (31 : Nat) ≠ io.2 := by
        have := data_off_lt io hio
        omega
      rw [mask31_testBit _ _ (data_off_lt io hio), hw, Nat.testBit_xor,
        Nat.testBit_two_pow, decide_eq_false hne, Bool.xor_false]
      exact hdata io hio
    rw [hx]

/-- Claim C4: Hamming double-error detection.  For every 26-bit data value `d`
and every pair of distinct bit positions `p ≠ q` in `[0, 31]`, flipping both
bits of `hamming_31_26_encode d` and decoding yields the status
`Uncorrectable` (the status that `decode_with_hamming_31_26` tallies as one
uncorrected error); the returned data bits need not equal `d`. -/
theorem hamming_decode_double_flip (d p q : Nat) (hp32 : p < 32) (hq32 : q < 32)
    (hpq : p ≠ q) :
    (hamming_31_26_decode (hamming_31_26_encode d ^^^ (1 <<< p) ^^^ (1 <<< q))).2
      = HammingStatus.Uncorrectable := by
  obtain ⟨hp1, hp2, hp4, hp8, hp16, hpar, hdata, hlt⟩ := hamming_encode_char d
  set E := hamming_31_26_encode d with hE
  rw [one_shiftLeft', one_shiftLeft']
  set w := E ^^^ 2 ^ p ^^^ 2 ^ q with hw
  have hparw : countOnes w % 2 = 0 := by
    rw [countOnes_mod_two, hw, parity32_xor, parity32_xor, hpar, Bool.false_xor,
      parity32_two_pow p hp32, parity32_two_pow q hq32]
    rfl
  rcases Nat.lt_or_ge p 31 with hpl | hpg <;> rcases Nat.lt_or_ge q 31 with hql | hqg
  · -- both flips inside the 31-bit field
    have hgroup : ∀ (pk k : Nat), parityBool pk E = false → pk = 2 ^ k →
        parityBool pk (w &&& BIT_MASK_31)
          = ((p + 1) ^^^ (q + 1)).testBit k := by
      intro pk k hE0 hpk
      rw [parityBool_mask31, hw, parityBool_xor, parityBool_xor, hE0,
        Bool.false_xor, parityBool_two_pow_lt pk p hpl,
        parityBool_two_pow_lt pk q hql, hpk, and_two_pow_decide (p + 1) k,
        and_two_pow_decide (q + 1) k, Nat.testBit_xor]
    have hsne : (p + 1) ^^^ (q + 1) ≠ 0 := xor_ne_zero_of_ne _ _ (by omega)
    have hslt : (p + 1) ^^^ (q + 1) < 32 := by
      have h32 : (32 : Nat) = 2 ^ 5 := by norm_num
      rw [h32]
      exact Nat.xor_lt_two_pow (by omega) (by omega)
    have hsy : syndromeNat (w &&& BIT_MASK_31) = (p + 1) ^^^ (q + 1) :=
      syndromeNat_eval _ _ hslt
        (hgroup 1 0 hp1 (by norm_num)) (hgroup 2 1 hp2 (by norm_num))
        (hgroup 4 2 hp4 (by norm_num)) (hgroup 8 3 hp8 (by norm_num))
        (hgroup 16 4 hp16 (by norm_num))
    rw [hamming_decode_eq, hsy, decodeCS_double w _ hsne hparw]
  · -- q = 31
    have hq31 : q = 31 := by omega
    subst hq31
    have hgroup : ∀ (pk k : Nat), parityBool pk E = false → pk = 2 ^ k →
        parityBool pk (w &&& BIT_MASK_31) = (p + 1).testBit k := by
      intro pk k hE0 hpk
      rw [parityBool_mask31, hw, parityBool_xor, parityBool_xor, hE0,
        Bool.false_xor, parityBool_two_pow_lt pk p hpl, parityBool_two_pow_31,
        Bool.xor_false, hpk, and_two_pow_decide (p + 1) k]
    have hsy : syndromeNat (w &&& BIT_MASK_31) = p + 1 :=
      syndromeNat_eval _ _ (by omega)
        (hgroup 1 0 hp1 (by norm_num)) (hgroup 2 1 hp2 (by norm_num))
        (hgroup 4 2 hp4 (by norm_num)) (hgroup 8 3 hp8 (by norm_num))
        (hgroup 16 4 hp16 (by norm_num))
    rw [hamming_decode_eq, hsy, decodeCS_double w _ (by omega) hparw]
  · -- p = 31
    have hp31 : p = 31 := by omega
    subst hp31
    have hgroup : ∀ (pk k : Nat), parityBool pk E = false → pk = 2 ^ k →
        parityBool pk (w &&& BIT_MASK_31) = (q + 1).testBit k := by
      intro pk k hE0 hpk
      rw [parityBool_mask31, hw, parityBool_xor, parityBool_xor, hE0,
        Bool.false_xor, parityBool_two_pow_31, Bool.false_xor,
        parityBool_two_pow_lt pk q hql, hpk, and_two_pow_decide (q + 1) k]
    have hsy : syndromeNat (w &&& BIT_MASK_31) = q + 1 :=
      syndromeNat_eval _ _ (by omega)
        (hgroup 1 0 hp1 (by norm_num)) (hgroup 2 1 hp2 (by norm_num))
        (hgroup 4 2 hp4 (by norm_num)) (hgroup 8 3 hp8 (by norm_num))
        (hgroup 16 4 hp16 (by norm_num))
    rw [hamming_decode_eq, hsy, decodeCS_double w _ (by omega) hparw]
  · omega

/-! ## Hamming stream codec (`encode_with_hamming_31_26` /
`decode_with_hamming_31_26`) -/

/-- `u32::to_le_bytes`. -/
def u32ToLeBytes (x : Nat) : List Nat :=
  [x &&& 255, (x >>> 8) &&& 255, (x >>> 16) &&& 255, (x >>> 24) &&& 255]

/-- `u32::from_le_bytes` (on a 4-byte chunk). -/
def u32FromLeBytes : List Nat → Nat
  | [b0, b1, b2, b3] => ((b0 ||| (b1 <<< 8)) ||| (b2 <<< 16)) ||| (b3 <<< 24)
  | _ => 0

/-- `chunks_exact(4)`: the partial trailing chunk (never present in our uses)
is dropped, as in Rust. -/
def chunks4 : List Nat → List (List Nat)
  | a :: b :: c :: d :: rest => [a, b, c, d] :: chunks4 rest
  | _ => []

/-- `encode_with_hamming_31_26` from `src/error_correction.rs`: the byte loop
with its inner `while bit_counter >= 26` extraction is `runStream` (buffer is a
`u64`), and each extracted 26-bit group is emitted as the 4 little-endian bytes
of its Hamming code word. -/
def encode_with_hamming_31_26 (data : List Nat) : Except String (List Nat) :=
  if data.length % HAMMING_CHUNK_BYTES_31_26 ≠ 0 then
    Except.error "Data length must be a multiple of 13 bytes."
  else
    Except.ok
      (((runStream (2 ^ 64) 8 HAMMING_DATA_BITS_31_26 BIT_MASK_26 (0, 0) data).2.map
        (fun d => u32ToLeBytes (hamming_31_26_encode d))).join)

/-- `decode_with_hamming_31_26` from `src/error_correction.rs`: each 4-byte
chunk (read via `u32::from_le_bytes`) is decoded; statuses are tallied into the
report; the 26-bit data groups are repacked into bytes by `runStream` with a
`u64` buffer (`as u8` is the `&&& 255` mask).  The Rust local `decoded`
(one pass computing statuses and data bits together) is written out three
times here. -/
def decode_with_hamming_31_26 (data : List Nat) :
    Except String (List Nat × HammingReport) :=
  if data.length % HAMMING_CHUNK_BYTES_TOAL_31_26 ≠ 0 then
    Except.error "Data length must be a multiple of 16 bytes."
  else
    Except.ok
      ((runStream (2 ^ 64) HAMMING_DATA_BITS_31_26 8 255 (0, 0)
        (((chunks4 data).map (fun ch => hamming_31_26_decode (u32FromLeBytes ch))).map
          Prod.fst)).2,
       ⟨((chunks4 data).map (fun ch => hamming_31_26_decode (u32FromLeBytes ch))).countP
          (fun r => match r.2 with
            | HammingStatus.CorrectedSingle => true
            | _ => false),
        ((chunks4 data).map (fun ch => hamming_31_26_decode (u32FromLeBytes ch))).countP
          (fun r => match r.2 with
            | HammingStatus.Uncorrectable => true
            | _ => false)⟩)

/-! ### Stream lemmas -/

theorem digitsMSB_length (b : Nat) : ∀ (k n : Nat), (digitsMSB b k n).length = k := by
  intro k
  induction k with
  | zero => intro n; rfl
  | succ k ih =>
    intro n
    show (digitsMSB b k (n / b) ++ [n % b]).length = k + 1
    rw [List.length_append, ih]
    rfl

theorem u32ToLeBytes_cons (x : Nat) :
    ∀ (rest : List Nat), u32ToLeBytes x ++ rest
      = (x &&& 255) :: ((x >>> 8) &&& 255) :: ((x >>> 16) &&& 255) ::
        ((x >>> 24) &&& 255) :: rest := by
  intro rest
  rfl

theorem join_map_leBytes_length (f : Nat → Nat) :
    ∀ (l : List Nat), ((l.map (fun d => u32ToLeBytes (f d))).join).length = 4 * l.length := by
  intro l
  induction l with
  | nil => rfl
  | cons x l ih =>
    show (u32ToLeBytes (f x) ++ (l.map (fun d => u32ToLeBytes (f d))).join).length = _
    rw [List.length_append, ih]
    show 4 + 4 * l.length = 4 * (l.length + 1)
    ring

theorem chunks4_join_map_leBytes (f : Nat → Nat) :
    ∀ (l : List Nat),
      chunks4 ((l.map (fun d => u32ToLeBytes (f d))).join)
        = l.map (fun d => u32ToLeBytes (f d)) := by
  intro l
  induction l with
  | nil => rfl
  | cons x l ih =>
    show chunks4 (u32ToLeBytes (f x) ++ (l.map (fun d => u32ToLeBytes (f d))).join) = _
    rw [u32ToLeBytes_cons]
    show u32ToLeBytes (f x) :: chunks4 ((l.map (fun d => u32ToLeBytes (f d))).join) = _
    rw [ih]
    rfl

theorem u32_le_roundtrip (x : Nat) (hx : x < 2 ^ 32) :
    u32FromLeBytes (u32ToLeBytes x) = x := by
  show ((x &&& 255 ||| (((x >>> 8) &&& 255) <<< 8)) ||| (((x >>> 16) &&& 255) <<< 16))
      ||| (((x >>> 24) &&& 255) <<< 24) = x
  have h255 : (255 : Nat) = 2 ^ 8 - 1 := rfl
  have h0 : x &&& 255 = x % 256 := by
    rw [h255, Nat.and_pow_two_sub_one_eq_mod]
  have h1 : (x >>> 8) &&& 255 = x / 256 % 256 := by
    rw [h255, Nat.and_pow_two_sub_one_eq_mod, Nat.shiftRight_eq_div_pow]
  have h2 : (x >>> 16) &&& 255 = x / 65536 % 256 := by
    rw [h255, Nat.and_pow_two_sub_one_eq_mod, Nat.shiftRight_eq_div_pow]
  have h3 : (x >>> 24) &&& 255 = x / 16777216 % 256 := by
    rw [h255, Nat.and_pow_two_sub_one_eq_mod, Nat.shiftRight_eq_div_pow]
  rw [h0, h1, h2, h3]
  have s1 : x % 256 ||| (x / 256 % 256) <<< 8 = (x / 256 % 256) * 2 ^ 8 + x % 256 := by
    rw [Nat.lor_comm]
    exact shiftLeft_or_eq_add _ _ _ (by omega)
  rw [s1]
  have s2 : (x / 256 % 256) * 2 ^ 8 + x % 256 ||| (x / 65536 % 256) <<< 16
      = (x / 65536 % 256) * 2 ^ 16 + ((x / 256 % 256) * 2 ^ 8 + x % 256) := by
    rw [Nat.lor_comm]
    exact shiftLeft_or_eq_add _ _ _ (by omega)
  rw [s2]
  have s3 : (x / 65536 % 256) * 2 ^ 16 + ((x / 256 % 256) * 2 ^ 8 + x % 256)
        ||| (x / 16777216 % 256) <<< 24
      = (x / 16777216 % 256) * 2 ^ 24
        + ((x / 65536 % 256) * 2 ^ 16 + ((x / 256 % 256) * 2 ^ 8 + x % 256)) := by
    rw [Nat.lor_comm]
    exact shiftLeft_or_eq_add _ _ _ (by omega)
  rw [s3]
  omega

/-! ### Stream-level theorems -/

theorem map_fst_map_pair (st : HammingStatus) :
    ∀ (l : List Nat), (l.map (fun dd => (dd, st))).map Prod.fst = l := by
  intro l
  induction l with
  | nil => rfl
  | cons x l ih =>
    show (x, st).1 :: (l.map (fun dd => (dd, st))).map Prod.fst = x :: l
    rw [ih]

theorem encode_hamming_ok (data : List Nat) (h13 : data.length % 13 = 0)
    (hb : ∀ b ∈ data, b < 256) :
    encode_with_hamming_31_26 data
      = Except.ok (((digitsMSB (2 ^ 26) (data.length / 13 * 4)
          (undigits (2 ^ 8) 0 data)).map
            (fun d => u32ToLeBytes (hamming_31_26_encode d))).join) := by
  unfold encode_with_hamming_31_26
  rw [show HAMMING_CHUNK_BYTES_31_26 = 13 from rfl,
    show HAMMING_DATA_BITS_31_26 = 26 from rfl, if_neg (by omega)]
  obtain ⟨buf', hrun, _⟩ := runStream_spec (2 ^ 64) 8 26 BIT_MASK_26 64
    (by omega) (by omega) BIT_MASK_26_eq rfl (by omega) data 0 0
    (fun x hx => by have := hb x hx; omega) (by omega)
  have hdig : (runStream (2 ^ 64) 8 26 BIT_MASK_26 (0, 0) data).2
      = digitsMSB (2 ^ 26) ((0 + 8 * data.length) / 26)
          (undigits (2 ^ 8) (0 % 2 ^ 0) data / 2 ^ ((0 + 8 * data.length) % 26)) := by
    rw [hrun]
  rw [hdig, show (0 : Nat) % 2 ^ 0 = 0 from rfl,
    show (0 + 8 * data.length) % 26 = 0 from by omega,
    show (0 + 8 * data.length) / 26 = data.length / 13 * 4 from by omega,
    pow_zero, Nat.div_one]

/-- Claim C2: Hamming stream round-trip without noise.  For every byte vector
`P` whose length is a multiple of 13, `encode_with_hamming_31_26 P` succeeds
and decoding its output with `decode_with_hamming_31_26` returns exactly `P`
together with a report of zero corrected and zero uncorrected errors. -/
theorem hamming_stream_roundtrip (P : List Nat) (h13 : P.length % 13 = 0)
    (hb : ∀ b ∈ P, b < 256) :
    ∃ E, encode_with_hamming_31_26 P = Except.ok E ∧
      decode_with_hamming_31_26 E
        = Except.ok (P, (⟨0, 0⟩ : HammingReport)) := by
  set NP := undigits (2 ^ 8) 0 P with hNP
  set K := P.length / 13 * 4 with hK
  set digits := digitsMSB (2 ^ 26) K NP with hdigits
  refine ⟨_, encode_hamming_ok P h13 hb, ?_⟩
  have hNPlt : NP < 2 ^ (8 * P.length) := by
    have h := undigits_lt (2 ^ 8) (by norm_num) P 0
      (fun b hbm => by have := hb b hbm; omega)
    rw [Nat.zero_add, Nat.one_mul, ← pow_mul] at h
    exact h
  have hNPK : NP < (2 ^ 26) ^ K := by
    rw [← pow_mul, show 26 * K = 8 * P.length from by omega]
    exact hNPlt
  have hdlt : ∀ dd ∈ digits, dd < 2 ^ 26 :=
    digitsMSB_lt (2 ^ 26) K NP (by norm_num) hNPK
  have hElen : (((digitsMSB (2 ^ 26) K NP).map
      (fun d => u32ToLeBytes (hamming_31_26_encode d))).join).length = 4 * K := by
    rw [join_map_leBytes_length, digitsMSB_length]
  unfold decode_with_hamming_31_26
  rw [show HAMMING_CHUNK_BYTES_TOAL_31_26 = 16 from rfl,
    show HAMMING_DATA_BITS_31_26 = 26 from rfl, ← hdigits] at *
  rw [if_neg (by rw [hElen]; omega)]
  rw [chunks4_join_map_leBytes]
  have hdec : (digits.map (fun d => u32ToLeBytes (hamming_31_26_encode d))).map
      (fun ch => hamming_31_26_decode (u32FromLeBytes ch))
      = digits.map (fun dd => (dd, HammingStatus.NoError)) := by
    rw [List.map_map]
    apply List.map_congr_left
    intro dd hdd
    show hamming_31_26_decode (u32FromLeBytes (u32ToLeBytes (hamming_31_26_encode dd))) = _
    obtain ⟨_, _, _, _, _, _, _, hlt⟩ := hamming_encode_char dd
    rw [u32_le_roundtrip _ hlt, hamming_decode_encode dd, mask26_of_lt dd (hdlt dd hdd)]
  rw [hdec]
  rw [map_fst_map_pair HammingStatus.NoError digits]
  have hc0 : (digits.map (fun dd => (dd, HammingStatus.NoError))).countP
      (fun r => match r.2 with
        | HammingStatus.CorrectedSingle => true
        | _ => false) = 0 := by
    apply List.countP_eq_zero.mpr
    intro a ha
    obtain ⟨dd, _, rfl⟩ := List.mem_map.mp ha
    exact fun hcontra => Bool.noConfusion hcontra
  have hu0 : (digits.map (fun dd => (dd, HammingStatus.NoError))).countP
      (fun r => match r.2 with
        | HammingStatus.Uncorrectable => true
        | _ => false) = 0 := by
    apply List.countP_eq_zero.mpr
    intro a ha
    obtain ⟨dd, _, rfl⟩ := List.mem_map.mp ha
    exact fun hcontra => Bool.noConfusion hcontra
  rw [hc0, hu0]
  obtain ⟨buf2, hrun2, _⟩ := runStream_spec (2 ^ 64) 26 8 255 64
    (by omega) (by omega) (by norm_num) rfl (by omega) digits 0 0 hdlt (by omega)
  have hout : (runStream (2 ^ 64) 26 8 255 (0, 0) digits).2
      = digitsMSB (2 ^ 8) ((0 + 26 * digits.length) / 8)
          (undigits (2 ^ 26) (0 % 2 ^ 0) digits / 2 ^ ((0 + 26 * digits.length) % 8)) := by
    rw [hrun2]
  have hdlen : digits.length = K := by
    rw [hdigits, digitsMSB_length]
  rw [hout, hdlen, show (0 : Nat) % 2 ^ 0 = 0 from rfl,
    show (0 + 26 * K) % 8 = 0 from by omega,
    show (0 + 26 * K) / 8 = P.length from by omega,
    pow_zero, Nat.div_one, hdigits,
    undigits_digitsMSB (2 ^ 26) K NP 0 (by norm_num) hNPK, Nat.zero_mul,
    Nat.zero_add, hNP,
    digitsMSB_undigits (2 ^ 8) (by norm_num) P
      (fun b hbm => by have := hb b hbm; omega)]

theorem encode_hamming_err (data : List Nat) (h13 : data.length % 13 ≠ 0) :
    encode_with_hamming_31_26 data
      = Except.error "Data length must be a multiple of 13 bytes." := by
  unfold encode_with_hamming_31_26
  rw [show HAMMING_CHUNK_BYTES_31_26 = 13 from rfl, if_pos h13]

/-- Claim C8: Hamming stream encode length and precondition.
`encode_with_hamming_31_26` returns an error if and only if the input length
is not a multiple of 13 bytes; when it succeeds on an input of `n` bytes, the
output has exactly `(n / 13) * 16` bytes. -/
theorem encode_hamming_iff_and_len (data : List Nat) (hb : ∀ b ∈ data, b < 256) :
    ((∃ e, encode_with_hamming_31_26 data = Except.error e)
        ↔ data.length % 13 ≠ 0) ∧
    (∀ out, encode_with_hamming_31_26 data = Except.ok out →
      out.length = data.length / 13 * 16) := by
  constructor
  · constructor
    · rintro ⟨e, he⟩ h0
      rw [encode_hamming_ok data h0 hb] at he
      exact Except.noConfusion he
    · intro h
      exact ⟨_, encode_hamming_err data h⟩
  · intro out hout
    by_cases h : data.length % 13 = 0
    · rw [encode_hamming_ok data h hb] at hout
      injection hout with h'
      rw [← h', join_map_leBytes_length, digitsMSB_length]
      omega
    · rw [encode_hamming_err data h] at hout
      exact Except.noConfusion hout

/-! ### Witnesses for the Hamming claims -/

/-- Witness for claim C2 at the concrete 13-byte input `[0, 1, ..., 12]`. -/
theorem hamming_stream_roundtrip_witness :
    (List.range 13).length % 13 = 0 ∧
    (∃ E, encode_with_hamming_31_26 (List.range 13) = Except.ok E ∧
      decode_with_hamming_31_26 E
        = Except.ok (List.range 13, (⟨0, 0⟩ : HammingReport))) :=
  ⟨by decide, hamming_stream_roundtrip (List.range 13) (by decide) (by decide)⟩

/-- Witness for claim C3 at the concrete data word 5, flipping bit 7. -/
theorem hamming_decode_single_flip_witness :
    (5 : Nat) < 2 ^ 26 ∧ (7 : Nat) < 32 ∧
    hamming_31_26_decode (hamming_31_26_encode 5 ^^^ (1 <<< 7))
      = (5, HammingStatus.CorrectedSingle) :=
  ⟨by decide, by decide, hamming_decode_single_flip 5 7 (by decide) (by decide)⟩

/-- Witness for claim C4 at the concrete data word 3, flipping bits 2 and 30. -/
theorem hamming_decode_double_flip_witness :
    (2 : Nat) < 32 ∧ (30 : Nat) < 32 ∧ (2 : Nat) ≠ 30 ∧
    (hamming_31_26_decode (hamming_31_26_encode 3 ^^^ (1 <<< 2) ^^^ (1 <<< 30))).2
      = HammingStatus.Uncorrectable :=
  ⟨by decide, by decide, by decide,
    hamming_decode_double_flip 3 2 30 (by decide) (by decide) (by decide)⟩

/-- Witness for claim C8 at the concrete input `[1, 2, 3]` (3 bytes, not a
multiple of 13, so encoding must fail). -/
theorem encode_hamming_iff_and_len_witness :
    ((∃ e, encode_with_hamming_31_26 [1, 2, 3] = Except.error e)
      ↔ [1, 2, 3].length % 13 ≠ 0) :=
  (encode_hamming_iff_and_len [1, 2, 3] (by decide)).1

/-! ## The pixel codec (`src/converter.rs`)

`Converter` and `Converter::new`.  The Rust function takes the fixed-size
arrays `color_bits : [u32; 3]`, `frame_dimensions : [u32; 2]` and
`data_dimensions : [u32; 2]`; here the array elements are passed as separate
`Nat` arguments (`cb0 cb1 cb2`, `fw fh`, `dw dh`).  The error messages keep
the Rust text without the interpolated values.  In Rust,
`frame_dimensions[i] % data_dimensions[i]` panics when the divisor is zero, so
a configuration with a zero data dimension never yields a converter; the model
returns a distinguished error in that case. -/

def DOWNSAMPLE_SCALER : Nat := 2

structure Converter where
  red_bits : Nat
  red_mask : Nat
  green_bits : Nat
  green_mask : Nat
  blue_bits : Nat
  blue_mask : Nat
  total_bits : Nat
  total_mask : Nat
  data_fps : Nat
  video_fps : Nat
  frame_height : Nat
  frame_width : Nat
  data_height : Nat
  data_width : Nat
  frame_data_unit_count : Nat
  frame_data_byte_count : Nat

/-- `Converter::new` from `src/converter.rs`: the validation chain in source
order, then the field initialisers.  All shifts `1 << bits` happen with
`bits ≤ 8 ≤ 24 < 32`, so the `u32` arithmetic never truncates and is modelled
by plain `Nat` arithmetic. -/
def Converter.new (cb0 cb1 cb2 data_fps video_fps fw fh dw dh : Nat) :
    Except String Converter :=
  if 8 < cb0 ∨ 8 < cb1 ∨ 8 < cb2 then
    Except.error "Color channel bit counts must be one byte or smaller."
  else if ¬ (1 ≤ data_fps ∧ data_fps ≤ video_fps) then
    Except.error "Data fps must be between MIN_FPS and video fps."
  else if video_fps % data_fps ≠ 0 then
    Except.error "Video fps is not whole multiple of data fps."
  else if dw = 0 then
    Except.error "panic: attempt to calculate the remainder with a divisor of zero"
  else if fw % dw ≠ 0 then
    Except.error "Frame width is not whole multiple of data width."
  else if dh = 0 then
    Except.error "panic: attempt to calculate the remainder with a divisor of zero"
  else if fh % dh ≠ 0 then
    Except.error "Frame height is not whole multiple of data height."
  else if fw < DOWNSAMPLE_SCALER * dw then
    Except.error "Frame width can not be smaller than data width multiplied by downsample scaler."
  else if fh < DOWNSAMPLE_SCALER * dh then
    Except.error "Frame height can to be smaller than data height multiplied by downsample scaler."
  else if (cb0 + cb1 + cb2) * (dw * dh) % 8 ≠ 0 then
    Except.error "Frame must encode whole number of bytes."
  else
    Except.ok
      { red_bits := cb0, red_mask := (1 <<< cb0) - 1,
        green_bits := cb1, green_mask := (1 <<< cb1) - 1,
        blue_bits := cb2, blue_mask := (1 <<< cb2) - 1,
        total_bits := cb0 + cb1 + cb2,
        total_mask := (1 <<< (cb0 + cb1 + cb2)) - 1,
        data_fps := data_fps, video_fps := video_fps,
        frame_height := fh, frame_width := fw,
        data_height := dh, data_width := dw,
        frame_data_unit_count := dw * dh,
        frame_data_byte_count := (cb0 + cb1 + cb2) * (dw * dh) / 8 }

/-- The three bit fields of one data unit, exactly as `data_to_frame` reads
them (`k = 0`: red, `k = 1`: green, anything else: blue). -/
def channelField (c : Converter) (k u : Nat) : Nat :=
  if k = 0 then (u >>> (c.green_bits + c.blue_bits)) &&& c.red_mask
  else if k = 1 then (u >>> c.blue_bits) &&& c.green_mask
  else u &&& c.blue_mask

/-- The configured bit width of channel `k` (`0`: red, `1`: green, else blue). -/
def channelBits (c : Converter) (k : Nat) : Nat :=
  if k = 0 then c.red_bits else if k = 1 then c.green_bits else c.blue_bits

/-- One channel sample of `data_to_frame`: the field value `f` is shifted to
the top of the byte (`<<= u8::BITS - bits` on a `u8`, hence the `% 256`), and
when fewer than 8 bits are used the anchor bit `1 << (u8::BITS - bits - 1)` is
set.  (For `bits = 0` the Rust `u8` shift by 8 overflows and panics in a debug
build; every theorem below assumes `1 ≤ bits`.) -/
def encodeChannel (b f : Nat) : Nat :=
  if b < 8 then (f <<< (8 - b)) % 256 ||| 1 <<< (8 - b - 1)
  else (f <<< (8 - b)) % 256

/-- The red, green and blue samples pushed for one extracted data unit. -/
def dataUnitToSamples (c : Converter) (u : Nat) : List Nat :=
  [encodeChannel c.red_bits (channelField c 0 u),
   encodeChannel c.green_bits (channelField c 1 u),
   encodeChannel c.blue_bits (channelField c 2 u)]

/-- `Converter::data_to_frame`: the byte loop with its inner
`while bit_count >= total_bits` extraction is `runStream` with a `u32` buffer;
each extracted data unit is emitted as its three channel samples. -/
def Converter.data_to_frame (c : Converter) (data : List Nat) : List Nat :=
  ((runStream (2 ^ 32) 8 c.total_bits c.total_mask (0, 0) data).2.map
    (dataUnitToSamples c)).join

/-- `chunks_exact(COLOR_CHANNELS)` over the flat sample list (a trailing
partial chunk is dropped, as in Rust). -/
def frameChunks : List Nat → List (List Nat)
  | a :: b :: cc :: rest => [a, b, cc] :: frameChunks rest
  | _ => []

/-- Recompose one data unit from a 3-sample chunk, as in
`Converter::frame_to_data`:
`blue | (green << blue_bits) | (red << (blue_bits + green_bits))` where each
channel value is the sample shifted down by `u8::BITS - bits`. -/
def samplesToUnit (c : Converter) (s : List Nat) : Nat :=
  (s.getD 2 0 >>> (8 - c.blue_bits)) |||
    ((s.getD 1 0 >>> (8 - c.green_bits)) <<< c.blue_bits) |||
    ((s.getD 0 0 >>> (8 - c.red_bits)) <<< (c.blue_bits + c.green_bits))

/-- `Converter::frame_to_data`: each 3-byte chunk is recomposed into a data
unit, and the units are repacked into bytes by `runStream` with a `u32`
buffer (`as u8` is the `&&& 255` mask). -/
def Converter.frame_to_data (c : Converter) (frame_data_units : List Nat) : List Nat :=
  (runStream (2 ^ 32) c.total_bits 8 255 (0, 0)
    ((frameChunks frame_data_units).map (samplesToUnit c))).2

/-! ### Converter.new theorems (claims C6 and C9) -/

/-- Inversion of a successful `Converter::new`: the bit-and-mask fields of the
produced converter, the bounds from the first guard, and the byte-count
equation from the last guard. -/
theorem Converter.new_inv (cb0 cb1 cb2 dfps vfps fw fh dw dh : Nat) (c : Converter)
    (h : Converter.new cb0 cb1 cb2 dfps vfps fw fh dw dh = Except.ok c) :
    c.red_bits = cb0 ∧ c.red_mask = 2 ^ cb0 - 1 ∧
    c.green_bits = cb1 ∧ c.green_mask = 2 ^ cb1 - 1 ∧
    c.blue_bits = cb2 ∧ c.blue_mask = 2 ^ cb2 - 1 ∧
    c.total_bits = cb0 + cb1 + cb2 ∧
    c.total_mask = 2 ^ (cb0 + cb1 + cb2) - 1 ∧
    cb0 ≤ 8 ∧ cb1 ≤ 8 ∧ cb2 ≤ 8 ∧
    c.frame_data_unit_count = dw * dh ∧
    c.frame_data_byte_count * 8 = (cb0 + cb1 + cb2) * (dw * dh) := by
  unfold Converter.new at h
  by_cases h1 : 8 < cb0 ∨ 8 < cb1 ∨ 8 < cb2
  · rw [if_pos h1] at h; exact Except.noConfusion h
  rw [if_neg h1] at h
  by_cases h2 : ¬(1 ≤ dfps ∧ dfps ≤ vfps)
  · rw [if_pos h2] at h; exact Except.noConfusion h
  rw [if_neg h2] at h
  by_cases h3 : vfps % dfps ≠ 0
  · rw [if_pos h3] at h; exact Except.noConfusion h
  rw [if_neg h3] at h
  by_cases h4 : dw = 0
  · rw [if_pos h4] at h; exact Except.noConfusion h
  rw [if_neg h4] at h
  by_cases h5 : fw % dw ≠ 0
  · rw [if_pos h5] at h; exact Except.noConfusion h
  rw [if_neg h5] at h
  by_cases h6 : dh = 0
  · rw [if_pos h6] at h; exact Except.noConfusion h
  rw [if_neg h6] at h
  by_cases h7 : fh % dh ≠ 0
  · rw [if_pos h7] at h; exact Except.noConfusion h
  rw [if_neg h7] at h
  by_cases h8 : fw < DOWNSAMPLE_SCALER * dw
  · rw [if_pos h8] at h; exact Except.noConfusion h
  rw [if_neg h8] at h
  by_cases h9 : fh < DOWNSAMPLE_SCALER * dh
  · rw [if_pos h9] at h; exact Except.noConfusion h
  rw [if_neg h9] at h
  by_cases h10 : (cb0 + cb1 + cb2) * (dw * dh) % 8 ≠ 0
  · rw [if_pos h10] at h; exact Except.noConfusion h
  rw [if_neg h10] at h
  injection h with h
  subst h
  refine ⟨rfl, ?_, rfl, ?_, rfl, ?_, rfl, ?_, by omega, by omega, by omega, rfl, ?_⟩
  · show (1 <<< cb0) - 1 = 2 ^ cb0 - 1
    rw [one_shiftLeft']
  · show (1 <<< cb1) - 1 = 2 ^ cb1 - 1
    rw [one_shiftLeft']
  · show (1 <<< cb2) - 1 = 2 ^ cb2 - 1
    rw [one_shiftLeft']
  · show (1 <<< (cb0 + cb1 + cb2)) - 1 = 2 ^ (cb0 + cb1 + cb2) - 1
    rw [one_shiftLeft']
  · show (cb0 + cb1 + cb2) * (dw * dh) / 8 * 8 = (cb0 + cb1 + cb2) * (dw * dh)
    omega

/-- Claim C6 (amended): `Converter::new` rejects any channel bit count
greater than `u8::BITS = 8` with its first validation error.  The claimed
rejection of the value 0 does not happen: see
`converter_new_accepts_zero_bits`. -/
theorem converter_new_rejects_over_eight (cb0 cb1 cb2 dfps vfps fw fh dw dh : Nat)
    (h : 8 < cb0 ∨ 8 < cb1 ∨ 8 < cb2) :
    Converter.new cb0 cb1 cb2 dfps vfps fw fh dw dh
      = Except.error "Color channel bit counts must be one byte or smaller." := by
  unfold Converter.new
  rw [if_pos h]

/-- Witness for the amended claim C6 at the concrete input
`color_bits = [9, 0, 0]`. -/
theorem converter_new_rejects_over_eight_witness :
    (8 < 9 ∨ 8 < 0 ∨ 8 < 0) ∧
    Converter.new 9 0 0 1 1 2 2 1 1
      = Except.error "Color channel bit counts must be one byte or smaller." :=
  ⟨by decide, converter_new_rejects_over_eight 9 0 0 1 1 2 2 1 1 (by decide)⟩

/-- Counterexample to claim C6 as stated: `Converter::new` accepts a channel
bit count of 0, which lies outside `[1, 8]` — the guard only rejects values
above `u8::BITS`.  `color_bits = [0, 8, 0]` yields a converter. -/
theorem converter_new_accepts_zero_bits :
    Converter.new 0 8 0 1 1 2 2 1 1
      = Except.ok
          { red_bits := 0, red_mask := 0, green_bits := 8, green_mask := 255,
            blue_bits := 0, blue_mask := 0, total_bits := 8, total_mask := 255,
            data_fps := 1, video_fps := 1, frame_height := 2, frame_width := 2,
            data_height := 1, data_width := 1, frame_data_unit_count := 1,
            frame_data_byte_count := 1 } := rfl

/-- Claim C9 (amended): every configuration accepted by `Converter::new`
satisfies `8 * frame_data_byte_count = (R + G + B) * (dw * dh)`, but the bound
`frame_data_byte_count ≥ 144` needed by `reconstruct_file`'s unconditional
slice of the first 144 decoded bytes is NOT enforced: see
`converter_small_frame_accepted`. -/
theorem converter_frame_data_byte_count (cb0 cb1 cb2 dfps vfps fw fh dw dh : Nat)
    (c : Converter)
    (h : Converter.new cb0 cb1 cb2 dfps vfps fw fh dw dh = Except.ok c) :
    c.frame_data_byte_count * 8 = (cb0 + cb1 + cb2) * (dw * dh) := by
  obtain ⟨-, -, -, -, -, -, -, -, -, -, -, -, hbc⟩ :=
    Converter.new_inv cb0 cb1 cb2 dfps vfps fw fh dw dh c h
  exact hbc

/-- Witness for the amended claim C9 at the concrete configuration
`color_bits = [8, 8, 8]`, 2×2 frame, 1×1 data grid. -/
theorem converter_frame_data_byte_count_witness :
    ({ red_bits := 8, red_mask := 255, green_bits := 8, green_mask := 255,
       blue_bits := 8, blue_mask := 255, total_bits := 24,
       total_mask := 16777215, data_fps := 1, video_fps := 1,
       frame_height := 2, frame_width := 2, data_height := 1,
       data_width := 1, frame_data_unit_count := 1,
       frame_data_byte_count := 3 } : Converter).frame_data_byte_count * 8
      = (8 + 8 + 8) * (1 * 1) :=
  converter_frame_data_byte_count 8 8 8 1 1 2 2 1 1 _ rfl

/-- Counterexample to claim C9 as stated: `color_bits = [8, 8, 8]` with a 1×1
data grid in a 2×2 frame is accepted by `Converter::new`, and the resulting
`frame_data_byte_count` is `3 < 144`, so `reconstruct_file`'s slice
`img_content[0..144]` is out of bounds for this accepted configuration. -/
theorem converter_small_frame_accepted :
    (Converter.new 8 8 8 1 1 2 2 1 1
      = Except.ok
          { red_bits := 8, red_mask := 255, green_bits := 8, green_mask := 255,
            blue_bits := 8, blue_mask := 255, total_bits := 24,
            total_mask := 16777215, data_fps := 1, video_fps := 1,
            frame_height := 2, frame_width := 2, data_height := 1,
            data_width := 1, frame_data_unit_count := 1,
            frame_data_byte_count := 3 }) ∧ 3 < 144 :=
  ⟨rfl, by decide⟩

/-! ### Anchor property of the encoder samples (claim C7) -/

theorem encodeChannel_anchor (b f : Nat) (hb1 : 1 ≤ b) (hb8 : b ≤ 8) (hf : f < 2 ^ b) :
    (b < 8 → encodeChannel b f &&& ((1 <<< (8 - b)) - 1) = 1 <<< (7 - b)) ∧
    (b = 8 → encodeChannel b f = f) := by
  constructor
  · intro hb
    unfold encodeChannel
    rw [if_pos hb]
    have hpow : (2 : Nat) ^ b * 2 ^ (8 - b) = 256 := by
      rw [← pow_add, show b + (8 - b) = 8 from by omega]
      norm_num
    have hsm : (f <<< (8 - b)) % 256 = f <<< (8 - b) := by
      rw [Nat.shiftLeft_eq, Nat.mod_eq_of_lt]
      calc f * 2 ^ (8 - b) < 2 ^ b * 2 ^ (8 - b) :=
            mul_lt_mul_of_pos_right hf (Nat.pos_pow_of_pos _ (by omega))
        _ = 256 := hpow
    have hanchor : (2 : Nat) ^ (7 - b) < 2 ^ (8 - b) :=
      Nat.pow_lt_pow_right (by norm_num) (by omega)
    rw [hsm, one_shiftLeft', one_shiftLeft',
      show (8 : Nat) - b - 1 = 7 - b from by omega,
      shiftLeft_or_eq_add f (2 ^ (7 - b)) (8 - b) hanchor,
      Nat.and_pow_two_sub_one_eq_mod,
      show f * 2 ^ (8 - b) = 2 ^ (8 - b) * f from Nat.mul_comm _ _,
      Nat.mul_add_mod, Nat.mod_eq_of_lt hanchor, one_shiftLeft']
  · intro hb
    subst hb
    unfold encodeChannel
    rw [if_neg (by omega)]
    show (f <<< 0) % 256 = f
    rw [Nat.shiftLeft_eq, pow_zero, Nat.mul_one, Nat.mod_eq_of_lt (by omega)]

theorem dataUnitToSamples_length (c : Converter) (u : Nat) :
    (dataUnitToSamples c u).length = 3 := rfl

theorem join_map_samples_length (c : Converter) :
    ∀ (l : List Nat), ((l.map (dataUnitToSamples c)).join).length = 3 * l.length := by
  intro l
  induction l with
  | nil => rfl
  | cons x l ih =>
    show (dataUnitToSamples c x ++ (l.map (dataUnitToSamples c)).join).length = _
    rw [List.length_append, ih, dataUnitToSamples_length, List.length_cons]
    omega

theorem getD_map_samples (c : Converter) :
    ∀ (l : List Nat) (j : Nat), j < l.length →
      (l.map (dataUnitToSamples c)).getD j [] = dataUnitToSamples c (l.getD j 0) := by
  intro l
  induction l with
  | nil =>
    intro j hj
    simp at hj
  | cons x l ih =>
    intro j hj
    cases j with
    | zero => rfl
    | succ j =>
      rw [List.map_cons, List.getD_cons_succ, List.getD_cons_succ]
      exact ih j (by rw [List.length_cons] at hj; omega)

theorem getD_append_lt : ∀ (x y : List Nat) (i : Nat), i < x.length →
    (x ++ y).getD i 0 = x.getD i 0 := by
  intro x
  induction x with
  | nil =>
    intro y i hi
    simp at hi
  | cons a x ih =>
    intro y i hi
    cases i with
    | zero => rfl
    | succ i =>
      rw [List.cons_append, List.getD_cons_succ, List.getD_cons_succ]
      exact ih y i (by rw [List.length_cons] at hi; omega)

theorem getD_append_ge : ∀ (x y : List Nat) (i : Nat), x.length ≤ i →
    (x ++ y).getD i 0 = y.getD (i - x.length) 0 := by
  intro x
  induction x with
  | nil =>
    intro y i _
    rfl
  | cons a x ih =>
    intro y i hi
    cases i with
    | zero => rw [List.length_cons] at hi; omega
    | succ i =>
      rw [List.cons_append, List.getD_cons_succ, List.length_cons,
        show i + 1 - (x.length + 1) = i - x.length from by omega]
      exact ih y i (by rw [List.length_cons] at hi; omega)

theorem join_getD_three :
    ∀ (l : List (List Nat)) (i : Nat), (∀ x ∈ l, x.length = 3) → i < 3 * l.length →
      l.join.getD i 0 = (l.getD (i / 3) []).getD (i % 3) 0 := by
  intro l
  induction l with
  | nil =>
    intro i _ hi
    simp at hi
  | cons x l ih =>
    intro i h3 hi
    have hx : x.length = 3 := h3 x (List.mem_cons_self x l)
    have hjc : (x :: l).join = x ++ l.join := rfl
    rw [hjc]
    rcases Nat.lt_or_ge i 3 with hlt | hge
    · rw [getD_append_lt x l.join i (by omega),
        show i / 3 = 0 from by omega, List.getD_cons_zero,
        Nat.mod_eq_of_lt hlt]
    · rw [getD_append_ge x l.join i (by omega), hx,
        show i / 3 = (i - 3) / 3 + 1 from by omega, List.getD_cons_succ,
        show i % 3 = (i - 3) % 3 from by omega]
      refine ih (i - 3) (fun z hz => h3 z (List.mem_cons_of_mem x hz)) ?_
      rw [List.length_cons] at hi
      omega

/-- Claim C7: anchor property.  For every converter accepted by
`Converter::new` with channel bit counts in `[1, 8]` and every input, every
8-bit channel sample `s` emitted by `data_to_frame` for a channel of width `b`
satisfies `s &&& ((1 <<< (8 - b)) - 1) = 1 <<< (7 - b)` when `b < 8`; when
`b = 8` the sample is the raw 8-bit field of some data unit.  Sample `i` of
the output belongs to channel `i % 3` (red, green, blue). -/
theorem data_to_frame_anchor (cb0 cb1 cb2 dfps vfps fw fh dw dh : Nat) (c : Converter)
    (hnew : Converter.new cb0 cb1 cb2 dfps vfps fw fh dw dh = Except.ok c)
    (h1 : 1 ≤ cb0) (h2 : 1 ≤ cb1) (h3 : 1 ≤ cb2)
    (B : List Nat) (i : Nat) (hi : i < (c.data_to_frame B).length) :
    (channelBits c (i % 3) < 8 →
      (c.data_to_frame B).getD i 0 &&& ((1 <<< (8 - channelBits c (i % 3))) - 1)
        = 1 <<< (7 - channelBits c (i % 3))) ∧
    (channelBits c (i % 3) = 8 →
      ∃ u, (c.data_to_frame B).getD i 0 = channelField c (i % 3) u) := by
  obtain ⟨hrb, hrm, hgb, hgm, hbb, hbm, -, -, hc0, hc1, hc2, -, -⟩ :=
    Converter.new_inv cb0 cb1 cb2 dfps vfps fw fh dw dh c hnew
  set units := (runStream (2 ^ 32) 8 c.total_bits c.total_mask (0, 0) B).2 with hunits
  have hout : c.data_to_frame B = (units.map (dataUnitToSamples c)).join := rfl
  have hi' : i < 3 * units.length := by
    rw [hout, join_map_samples_length] at hi
    exact hi
  have hgetD : (c.data_to_frame B).getD i 0
      = (dataUnitToSamples c (units.getD (i / 3) 0)).getD (i % 3) 0 := by
    rw [hout, join_getD_three (units.map (dataUnitToSamples c)) i
      (fun z hz => by
        obtain ⟨u, -, rfl⟩ := List.mem_map.mp hz
        rfl)
      (by rw [List.length_map]; exact hi'),
      getD_map_samples c units (i / 3) (by omega)]
  set u0 := units.getD (i / 3) 0 with hu0
  have hrfield : channelField c 0 u0 < 2 ^ c.red_bits := by
    calc channelField c 0 u0 ≤ c.red_mask := Nat.and_le_right
      _ < 2 ^ c.red_bits := by
        rw [hrm, hrb]
        exact Nat.sub_lt (Nat.pos_pow_of_pos _ (by omega)) (by omega)
  have hgfield : channelField c 1 u0 < 2 ^ c.green_bits := by
    calc channelField c 1 u0 ≤ c.green_mask := Nat.and_le_right
      _ < 2 ^ c.green_bits := by
        rw [hgm, hgb]
        exact Nat.sub_lt (Nat.pos_pow_of_pos _ (by omega)) (by omega)
  have hbfield : channelField c 2 u0 < 2 ^ c.blue_bits := by
    calc channelField c 2 u0 ≤ c.blue_mask := Nat.and_le_right
      _ < 2 ^ c.blue_bits := by
        rw [hbm, hbb]
        exact Nat.sub_lt (Nat.pos_pow_of_pos _ (by omega)) (by omega)
  have hk : i % 3 = 0 ∨ i % 3 = 1 ∨ i % 3 = 2 := by omega
  rcases hk with hk | hk | hk <;> rw [hk] <;> constructor
  · intro hb
    rw [hgetD, hk]
    exact (encodeChannel_anchor c.red_bits (channelField c 0 u0)
      (by omega) (by omega) hrfield).1 hb
  · intro hb
    exact ⟨u0, by
      rw [hgetD, hk]
      exact (encodeChannel_anchor c.red_bits (channelField c 0 u0)
        (by omega) (by omega) hrfield).2 hb⟩
  · intro hb
    rw [hgetD, hk]
    exact (encodeChannel_anchor c.green_bits (channelField c 1 u0)
      (by omega) (by omega) hgfield).1 hb
  · intro hb
    exact ⟨u0, by
      rw [hgetD, hk]
      exact (encodeChannel_anchor c.green_bits (channelField c 1 u0)
        (by omega) (by omega) hgfield).2 hb⟩
  · intro hb
    rw [hgetD, hk]
    exact (encodeChannel_anchor c.blue_bits (channelField c 2 u0)
      (by omega) (by omega) hbfield).1 hb
  · intro hb
    exact ⟨u0, by
      rw [hgetD, hk]
      exact (encodeChannel_anchor c.blue_bits (channelField c 2 u0)
        (by omega) (by omega) hbfield).2 hb⟩

/-- The converter of the claim C7 witness: `color_bits = [2, 3, 3]`, 4×4
frame, 2×2 data grid. -/
def converterC7 : Converter :=
  { red_bits := 2, red_mask := 3, green_bits := 3, green_mask := 7,
    blue_bits := 3, blue_mask := 7, total_bits := 8, total_mask := 255,
    data_fps := 1, video_fps := 1, frame_height := 4, frame_width := 4,
    data_height := 2, data_width := 2, frame_data_unit_count := 4,
    frame_data_byte_count := 4 }

/-- Witness for claim C7: the red sample (index 0) of the frame encoding the
single byte `171`. -/
theorem data_to_frame_anchor_witness :
    (channelBits converterC7 (0 % 3) < 8 →
      (converterC7.data_to_frame [171]).getD 0 0
          &&& ((1 <<< (8 - channelBits converterC7 (0 % 3))) - 1)
        = 1 <<< (7 - channelBits converterC7 (0 % 3))) ∧
    (channelBits converterC7 (0 % 3) = 8 →
      ∃ u, (converterC7.data_to_frame [171]).getD 0 0
        = channelField converterC7 (0 % 3) u) :=
  data_to_frame_anchor 2 3 3 1 1 4 4 2 2 converterC7 rfl
    (by decide) (by decide) (by decide) [171] 0
    (by simp [converterC7, Converter.data_to_frame, runStream, drain,
      dataUnitToSamples] <;> omega)

/-! ### Pixel codec round trip (claim C1) -/

theorem one_lt_two_pow' (n : Nat) (hn : 0 < n) : 1 < 2 ^ n := by
  calc 1 < 2 := by norm_num
    _ = 2 ^ 1 := (pow_one 2).symm
    _ ≤ 2 ^ n := Nat.pow_le_pow_right (by norm_num) hn

/-- In the `bits < 8` case a sample is the field shifted up plus the anchor
bit. -/
theorem encodeChannel_eq_add (b f : Nat) (hb : b < 8) (hf : f < 2 ^ b) :
    encodeChannel b f = f * 2 ^ (8 - b) + 2 ^ (7 - b) := by
  unfold encodeChannel
  rw [if_pos hb]
  have hpow : (2 : Nat) ^ b * 2 ^ (8 - b) = 256 := by
    rw [← pow_add, show b + (8 - b) = 8 from by omega]
    norm_num
  have hsm : (f <<< (8 - b)) % 256 = f <<< (8 - b) := by
    rw [Nat.shiftLeft_eq, Nat.mod_eq_of_lt]
    calc f * 2 ^ (8 - b) < 2 ^ b * 2 ^ (8 - b) :=
          mul_lt_mul_of_pos_right hf (Nat.pos_pow_of_pos _ (by omega))
      _ = 256 := hpow
  have hanchor : (2 : Nat) ^ (7 - b) < 2 ^ (8 - b) :=
    Nat.pow_lt_pow_right (by norm_num) (by omega)
  rw [hsm, one_shiftLeft', show (8 : Nat) - b - 1 = 7 - b from by omega,
    shiftLeft_or_eq_add f (2 ^ (7 - b)) (8 - b) hanchor]

/-- Shifting a sample down by `u8::BITS - bits` recovers the field: the anchor
bit (and nothing else) lives in the low `8 - bits` bits. -/
theorem decodeChannel_encodeChannel (b f : Nat) (hb1 : 1 ≤ b) (hb8 : b ≤ 8)
    (hf : f < 2 ^ b) : encodeChannel b f >>> (8 - b) = f := by
  rcases Nat.lt_or_ge b 8 with hb | hb
  · rw [encodeChannel_eq_add b f hb hf, Nat.shiftRight_eq_div_pow,
      mul_pow_add_div f (2 ^ (7 - b)) (8 - b)
        (Nat.pow_lt_pow_right (by norm_num) (by omega))]
  · have hb' : b = 8 := by omega
    subst hb'
    unfold encodeChannel
    rw [if_neg (by omega)]
    show (f <<< 0) % 256 >>> 0 = f
    rw [Nat.shiftLeft_eq, pow_zero, Nat.mul_one, Nat.mod_eq_of_lt (by omega)]

/-- Round trip of a single data unit through the three channel samples. -/
theorem samplesToUnit_dataUnitToSamples (cb0 cb1 cb2 : Nat) (c : Converter)
    (hrb : c.red_bits = cb0) (hrm : c.red_mask = 2 ^ cb0 - 1)
    (hgb : c.green_bits = cb1) (hgm : c.green_mask = 2 ^ cb1 - 1)
    (hbb : c.blue_bits = cb2) (hbm : c.blue_mask = 2 ^ cb2 - 1)
    (h1 : 1 ≤ cb0) (h1' : cb0 ≤ 8) (h2 : 1 ≤ cb1) (h2' : cb1 ≤ 8)
    (h3 : 1 ≤ cb2) (h3' : cb2 ≤ 8)
    (u : Nat) (hu : u < 2 ^ (cb0 + cb1 + cb2)) :
    samplesToUnit c (dataUnitToSamples c u) = u := by
  have hshow : samplesToUnit c (dataUnitToSamples c u)
      = (encodeChannel c.blue_bits (channelField c 2 u) >>> (8 - c.blue_bits)) |||
        ((encodeChannel c.green_bits (channelField c 1 u) >>> (8 - c.green_bits))
          <<< c.blue_bits) |||
        ((encodeChannel c.red_bits (channelField c 0 u) >>> (8 - c.red_bits))
          <<< (c.blue_bits + c.green_bits)) := rfl
  have hudiv : u < 2 ^ (cb1 + cb2) * 2 ^ cb0 := by
    rw [← pow_add, show cb1 + cb2 + cb0 = cb0 + cb1 + cb2 from by omega]
    exact hu
  have hf0b : u / 2 ^ (cb1 + cb2) < 2 ^ cb0 := Nat.div_lt_of_lt_mul hudiv
  have hf0 : channelField c 0 u = u / 2 ^ (cb1 + cb2) := by
    show (u >>> (c.green_bits + c.blue_bits)) &&& c.red_mask = _
    rw [hgb, hbb, hrm, Nat.shiftRight_eq_div_pow, Nat.and_pow_two_sub_one_eq_mod,
      Nat.mod_eq_of_lt hf0b]
  have hf1 : channelField c 1 u = u / 2 ^ cb2 % 2 ^ cb1 := by
    show (u >>> c.blue_bits) &&& c.green_mask = _
    rw [hbb, hgm, Nat.shiftRight_eq_div_pow, Nat.and_pow_two_sub_one_eq_mod]
  have hf2 : channelField c 2 u = u % 2 ^ cb2 := by
    show u &&& c.blue_mask = _
    rw [hbm, Nat.and_pow_two_sub_one_eq_mod]
  have hf1b : u / 2 ^ cb2 % 2 ^ cb1 < 2 ^ cb1 :=
    Nat.mod_lt _ (Nat.pos_pow_of_pos _ (by omega))
  have hf2b : u % 2 ^ cb2 < 2 ^ cb2 :=
    Nat.mod_lt _ (Nat.pos_pow_of_pos _ (by omega))
  rw [hshow, hf0, hf1, hf2, hrb, hgb, hbb,
    decodeChannel_encodeChannel cb2 (u % 2 ^ cb2) h3 h3' hf2b,
    decodeChannel_encodeChannel cb1 (u / 2 ^ cb2 % 2 ^ cb1) h2 h2' hf1b,
    decodeChannel_encodeChannel cb0 (u / 2 ^ (cb1 + cb2)) h1 h1' hf0b,
    Nat.lor_comm (u % 2 ^ cb2) _,
    shiftLeft_or_eq_add (u / 2 ^ cb2 % 2 ^ cb1) (u % 2 ^ cb2) cb2 hf2b]
  have hS : u / 2 ^ cb2 % 2 ^ cb1 * 2 ^ cb2 + u % 2 ^ cb2 < 2 ^ (cb2 + cb1) := by
    have hstep : (u / 2 ^ cb2 % 2 ^ cb1 + 1) * 2 ^ cb2
        = u / 2 ^ cb2 % 2 ^ cb1 * 2 ^ cb2 + 2 ^ cb2 := by ring
    have hle : (u / 2 ^ cb2 % 2 ^ cb1 + 1) * 2 ^ cb2 ≤ 2 ^ cb1 * 2 ^ cb2 :=
      Nat.mul_le_mul_right _ (by omega)
    rw [pow_add]
    calc u / 2 ^ cb2 % 2 ^ cb1 * 2 ^ cb2 + u % 2 ^ cb2
        < (u / 2 ^ cb2 % 2 ^ cb1 + 1) * 2 ^ cb2 := by omega
      _ ≤ 2 ^ cb1 * 2 ^ cb2 := hle
      _ = 2 ^ cb2 * 2 ^ cb1 := Nat.mul_comm _ _
  rw [Nat.lor_comm _ ((u / 2 ^ (cb1 + cb2)) <<< (cb2 + cb1)),
    shiftLeft_or_eq_add (u / 2 ^ (cb1 + cb2))
      (u / 2 ^ cb2 % 2 ^ cb1 * 2 ^ cb2 + u % 2 ^ cb2) (cb2 + cb1) hS]
  have e1 : u / 2 ^ cb2 * 2 ^ cb2 + u % 2 ^ cb2 = u := by
    rw [Nat.mul_comm]
    exact Nat.div_add_mod u (2 ^ cb2)
  have e2 : u / 2 ^ cb2 / 2 ^ cb1 * 2 ^ cb1 + u / 2 ^ cb2 % 2 ^ cb1 = u / 2 ^ cb2 := by
    rw [Nat.mul_comm]
    exact Nat.div_add_mod (u / 2 ^ cb2) (2 ^ cb1)
  have hr' : u / 2 ^ (cb1 + cb2) = u / 2 ^ cb2 / 2 ^ cb1 := by
    rw [Nat.div_div_eq_div_mul, ← pow_add, Nat.add_comm cb2 cb1]
  rw [hr']
  calc u / 2 ^ cb2 / 2 ^ cb1 * 2 ^ (cb2 + cb1)
        + (u / 2 ^ cb2 % 2 ^ cb1 * 2 ^ cb2 + u % 2 ^ cb2)
      = (u / 2 ^ cb2 / 2 ^ cb1 * 2 ^ cb1 + u / 2 ^ cb2 % 2 ^ cb1) * 2 ^ cb2
        + u % 2 ^ cb2 := by
        rw [pow_add]
        ring
    _ = u / 2 ^ cb2 * 2 ^ cb2 + u % 2 ^ cb2 := by rw [e2]
    _ = u := e1

theorem frameChunks_join_samples (c : Converter) :
    ∀ (l : List Nat),
      frameChunks ((l.map (dataUnitToSamples c)).join) = l.map (dataUnitToSamples c) := by
  intro l
  induction l with
  | nil => rfl
  | cons x l ih =>
    show dataUnitToSamples c x :: frameChunks ((l.map (dataUnitToSamples c)).join)
      = (x :: l).map (dataUnitToSamples c)
    rw [ih]
    rfl

/-- Claim C1: pixel codec round trip.  For every converter accepted by
`Converter::new` with all channel bit counts in `[1, 8]`, and every byte
vector `B` of length exactly `frame_data_byte_count`,
`frame_to_data (data_to_frame B) = B`. -/
theorem frame_to_data_data_to_frame (cb0 cb1 cb2 dfps vfps fw fh dw dh : Nat)
    (c : Converter)
    (hnew : Converter.new cb0 cb1 cb2 dfps vfps fw fh dw dh = Except.ok c)
    (h1 : 1 ≤ cb0) (h2 : 1 ≤ cb1) (h3 : 1 ≤ cb2)
    (B : List Nat) (hlen : B.length = c.frame_data_byte_count)
    (hB : ∀ b ∈ B, b < 256) :
    c.frame_to_data (c.data_to_frame B) = B := by
  obtain ⟨hrb, hrm, hgb, hgm, hbb, hbm, htb, htm, hc0, hc1, hc2, -, hbc⟩ :=
    Converter.new_inv cb0 cb1 cb2 dfps vfps fw fh dw dh c hnew
  set T := cb0 + cb1 + cb2 with hT
  set NP := undigits (2 ^ 8) 0 B with hNP
  have hK : 8 * B.length = T * (dw * dh) := by omega
  obtain ⟨buf1, hrun1, -⟩ := runStream_spec (2 ^ 32) 8 c.total_bits c.total_mask 32
    (by omega) (by rw [htb]; omega) (by rw [htm, htb]) rfl (by rw [htb]; omega)
    B 0 0 (fun x hx => by have := hB x hx; omega) (by rw [htb]; omega)
  set units := (runStream (2 ^ 32) 8 c.total_bits c.total_mask (0, 0) B).2 with hunits
  have hm0 : (0 + 8 * B.length) % c.total_bits = 0 := by
    rw [htb, show 0 + 8 * B.length = T * (dw * dh) from by omega, Nat.mul_mod_right]
  have hd0 : (0 + 8 * B.length) / c.total_bits = dw * dh := by
    rw [htb, show 0 + 8 * B.length = T * (dw * dh) from by omega,
      Nat.mul_div_cancel_left _ (by omega : 0 < T)]
  have hunits_eq : units = digitsMSB (2 ^ T) (dw * dh) NP := by
    rw [hunits, hrun1]
    show digitsMSB (2 ^ c.total_bits) ((0 + 8 * B.length) / c.total_bits)
        (undigits (2 ^ 8) (0 % 2 ^ 0) B / 2 ^ ((0 + 8 * B.length) % c.total_bits))
      = digitsMSB (2 ^ T) (dw * dh) NP
    rw [show (0 : Nat) % 2 ^ 0 = 0 from rfl, hm0, hd0, htb, pow_zero, Nat.div_one]
  have hNPlt : NP < 2 ^ (8 * B.length) := by
    have h := undigits_lt (2 ^ 8) (by norm_num) B 0
      (fun b hbm => by have := hB b hbm; omega)
    rw [Nat.zero_add, Nat.one_mul, ← pow_mul] at h
    exact h
  have hNPK : NP < (2 ^ T) ^ (dw * dh) := by
    rw [← pow_mul, show T * (dw * dh) = 8 * B.length from by omega]
    exact hNPlt
  have hult : ∀ x ∈ units, x < 2 ^ c.total_bits := by
    rw [htb, hunits_eq]
    exact digitsMSB_lt (2 ^ T) (dw * dh) NP (one_lt_two_pow' T (by omega)) hNPK
  have hdec : (frameChunks (c.data_to_frame B)).map (samplesToUnit c) = units := by
    have hout : c.data_to_frame B = (units.map (dataUnitToSamples c)).join := rfl
    rw [hout, frameChunks_join_samples, List.map_map]
    have hpt : ∀ x ∈ units, (samplesToUnit c ∘ dataUnitToSamples c) x = id x :=
      fun x hx =>
        samplesToUnit_dataUnitToSamples cb0 cb1 cb2 c hrb hrm hgb hgm hbb hbm
          h1 hc0 h2 hc1 h3 hc2 x (by have := hult x hx; rw [htb] at this; exact this)
    rw [List.map_congr_left hpt, List.map_id]
  have hfin : c.frame_to_data (c.data_to_frame B)
      = (runStream (2 ^ 32) c.total_bits 8 255 (0, 0) units).2 := by
    show (runStream (2 ^ 32) c.total_bits 8 255 (0, 0)
      ((frameChunks (c.data_to_frame B)).map (samplesToUnit c))).2 = _
    rw [hdec]
  obtain ⟨buf2, hrun2, -⟩ := runStream_spec (2 ^ 32) c.total_bits 8 255 32
    (by rw [htb]; omega) (by omega) (by norm_num) rfl (by rw [htb]; omega)
    units 0 0 hult (by omega)
  have hout2 : (runStream (2 ^ 32) c.total_bits 8 255 (0, 0) units).2
      = digitsMSB (2 ^ 8) ((0 + c.total_bits * units.length) / 8)
          (undigits (2 ^ c.total_bits) (0 % 2 ^ 0) units /
            2 ^ ((0 + c.total_bits * units.length) % 8)) := by
    rw [hrun2]
  have hlenu : units.length = dw * dh := by
    rw [hunits_eq, digitsMSB_length]
  rw [hfin, hout2, htb, hlenu, show (0 : Nat) % 2 ^ 0 = 0 from rfl,
    show (0 + T * (dw * dh)) % 8 = 0 from by omega,
    show (0 + T * (dw * dh)) / 8 = B.length from by omega,
    pow_zero, Nat.div_one, hunits_eq,
    undigits_digitsMSB (2 ^ T) (dw * dh) NP 0 (one_lt_two_pow' T (by omega)) hNPK,
    Nat.zero_mul, Nat.zero_add, hNP,
    digitsMSB_undigits (2 ^ 8) (by norm_num) B
      (fun b hbm => by have := hB b hbm; omega)]

/-- The converter of the claim C1 witness: `color_bits = [1, 2, 1]`, 8×8
frame, 4×4 data grid, 8 bytes per frame. -/
def converterC1 : Converter :=
  { red_bits := 1, red_mask := 1, green_bits := 2, green_mask := 3,
    blue_bits := 1, blue_mask := 1, total_bits := 4, total_mask := 15,
    data_fps := 1, video_fps := 1, frame_height := 8, frame_width := 8,
    data_height := 4, data_width := 4, frame_data_unit_count := 16,
    frame_data_byte_count := 8 }

/-- Witness for claim C1: the 8-byte frame `[1, ..., 8]` survives the round
trip through the pixel codec of `converterC1`. -/
theorem frame_to_data_data_to_frame_witness :
    converterC1.frame_to_data (converterC1.data_to_frame [1, 2, 3, 4, 5, 6, 7, 8])
      = [1, 2, 3, 4, 5, 6, 7, 8] :=
  frame_to_data_data_to_frame 1 2 1 1 1 8 8 4 4 converterC1 rfl
    (by decide) (by decide) (by decide) [1, 2, 3, 4, 5, 6, 7, 8]
    (by decide) (by decide)

/-! ## The data block header (`src/converter.rs`, claim C5)

`Sha256::digest` comes from the external `sha2` crate, so the hash is an
abstract parameter `sha : List Nat → List Nat`; the theorems assume only that
it returns 32 bytes, which the Rust type `[u8; 32]` guarantees. -/

def VERSION_CODE : List Nat := [68, 65, 67, 79, 0, 255, 0, 1]

def HEADER_LEN : Nat := 48

/-- `u64::to_le_bytes`. -/
def u64ToLeBytes (x : Nat) : List Nat :=
  [x &&& 255, (x >>> 8) &&& 255, (x >>> 16) &&& 255, (x >>> 24) &&& 255,
   (x >>> 32) &&& 255, (x >>> 40) &&& 255, (x >>> 48) &&& 255, (x >>> 56) &&& 255]

/-- `u64::from_le_bytes` on an 8-byte slice. -/
def u64FromLeBytes (l : List Nat) : Nat :=
  l.getD 0 0 ||| (l.getD 1 0 <<< 8) ||| (l.getD 2 0 <<< 16) ||| (l.getD 3 0 <<< 24) |||
    (l.getD 4 0 <<< 32) ||| (l.getD 5 0 <<< 40) ||| (l.getD 6 0 <<< 48) |||
    (l.getD 7 0 <<< 56)

/-- `Converter::data_block_header`: the 48-byte header
(`VERSION_CODE`, little-endian `u64` length, SHA-256 hash) triplicated by
`std::array::from_fn(|i| header[i % 48])`. -/
def data_block_header (sha : List Nat → List Nat) (data : List Nat) : List Nat :=
  let header := VERSION_CODE ++ u64ToLeBytes (data.length % 2 ^ 64) ++ sha data
  (List.range (HEADER_LEN * 3)).map (fun i => header.getD (i % HEADER_LEN) 0)

/-- The fields read back by `Converter::read_data_header`. -/
structure HeaderData where
  version_code : List Nat
  data_len : Nat
  sha256_hash : List Nat

/-- `Converter::read_data_header`: split into three 48-byte parts, bytewise
majority vote `(a & b) | (b & c) | (a & c)`, then field extraction.  (The
`try_into` conversions cannot fail: the slices have the right lengths and
`usize` is 64-bit.) -/
def read_data_header (header : List Nat) : HeaderData :=
  let part1 := header.take HEADER_LEN
  let part2 := (header.drop HEADER_LEN).take HEADER_LEN
  let part3 := (header.drop HEADER_LEN).drop HEADER_LEN
  let majority := (List.range HEADER_LEN).map (fun i =>
    part1.getD i 0 &&& part2.getD i 0 ||| part2.getD i 0 &&& part3.getD i 0 |||
      part1.getD i 0 &&& part3.getD i 0)
  { version_code := majority.take 8,
    data_len := u64FromLeBytes ((majority.drop 8).take 8),
    sha256_hash := majority.drop 16 }

/-- Flip bit `t` of byte `j` of a byte list. -/
def flipBit (l : List Nat) (j t : Nat) : List Nat :=
  l.set j (l.getD j 0 ^^^ (1 <<< t))

/-! ### List access lemmas for the header proof -/

theorem getD_set_self : ∀ (l : List Nat) (j v : Nat), j < l.length →
    (l.set j v).getD j 0 = v := by
  intro l
  induction l with
  | nil =>
    intro j v h
    simp at h
  | cons a l ih =>
    intro j v h
    cases j with
    | zero => rfl
    | succ j =>
      show (a :: l.set j v).getD (j + 1) 0 = v
      rw [List.getD_cons_succ]
      exact ih j v (by rw [List.length_cons] at h; omega)

theorem getD_set_ne : ∀ (l : List Nat) (j v i : Nat), i ≠ j →
    (l.set j v).getD i 0 = l.getD i 0 := by
  intro l
  induction l with
  | nil =>
    intro j v i _
    cases j <;> rfl
  | cons a l ih =>
    intro j v i hne
    cases j with
    | zero =>
      cases i with
      | zero => exact absurd rfl hne
      | succ i => rfl
    | succ j =>
      cases i with
      | zero => rfl
      | succ i =>
        show (a :: l.set j v).getD (i + 1) 0 = (a :: l).getD (i + 1) 0
        rw [List.getD_cons_succ, List.getD_cons_succ]
        exact ih j v i (fun hc => hne (by rw [hc]))

theorem getD_take : ∀ (l : List Nat) (n i : Nat), i < n →
    (l.take n).getD i 0 = l.getD i 0 := by
  intro l
  induction l with
  | nil =>
    intro n i _
    cases n <;> rfl
  | cons a l ih =>
    intro n i hi
    cases n with
    | zero => omega
    | succ n =>
      cases i with
      | zero => rfl
      | succ i =>
        show (a :: l.take n).getD (i + 1) 0 = (a :: l).getD (i + 1) 0
        rw [List.getD_cons_succ, List.getD_cons_succ]
        exact ih n i (by omega)

theorem getD_drop : ∀ (l : List Nat) (n i : Nat),
    (l.drop n).getD i 0 = l.getD (n + i) 0 := by
  intro l
  induction l with
  | nil =>
    intro n i
    cases n <;> rfl
  | cons a l ih =>
    intro n i
    cases n with
    | zero =>
      rw [Nat.zero_add]
      rfl
    | succ n =>
      show (l.drop n).getD i 0 = (a :: l).getD (n + 1 + i) 0
      rw [ih n i, show n + 1 + i = (n + i) + 1 from by omega, List.getD_cons_succ]

theorem getD_map_range (f : Nat → Nat) (n i : Nat) (hi : i < n) :
    ((List.range n).map f).getD i 0 = f i := by
  have hl : i < ((List.range n).map f).length := by
    rw [List.length_map, List.length_range]
    exact hi
  rw [List.getD_eq_getElem _ _ hl, List.getElem_map, List.getElem_range]

theorem map_range_getD (l : List Nat) (n : Nat) (h : l.length = n) :
    (List.range n).map (fun i => l.getD i 0) = l := by
  apply List.ext_getElem
  · rw [List.length_map, List.length_range, h]
  · intro i h1 h2
    rw [List.getElem_map, List.getElem_range, List.getD_eq_getElem l 0 h2]

theorem take_append_len : ∀ (x y : List Nat) (n : Nat), x.length = n →
    (x ++ y).take n = x := by
  intro x
  induction x with
  | nil =>
    intro y n h
    rw [show n = 0 from h.symm]
    rfl
  | cons a x ih =>
    intro y n h
    rw [List.length_cons] at h
    cases n with
    | zero => omega
    | succ n =>
      show a :: (x ++ y).take n = a :: x
      rw [ih y n (by omega)]

theorem drop_append_len : ∀ (x y : List Nat) (n : Nat), x.length = n →
    (x ++ y).drop n = y := by
  intro x
  induction x with
  | nil =>
    intro y n h
    rw [show n = 0 from h.symm]
    rfl
  | cons a x ih =>
    intro y n h
    rw [List.length_cons] at h
    cases n with
    | zero => omega
    | succ n =>
      show (x ++ y).drop n = y
      exact ih y n (by omega)

/-! ### Bytewise majority absorbs one corrupted copy -/

theorem maj_flip_1 (a x : Nat) : x &&& a ||| a &&& a ||| x &&& a = a := by
  apply Nat.eq_of_testBit_eq
  intro i
  simp only [Nat.testBit_or, Nat.testBit_and]
  cases a.testBit i <;> cases x.testBit i <;> rfl

theorem maj_flip_2 (a x : Nat) : a &&& x ||| x &&& a ||| a &&& a = a := by
  apply Nat.eq_of_testBit_eq
  intro i
  simp only [Nat.testBit_or, Nat.testBit_and]
  cases a.testBit i <;> cases x.testBit i <;> rfl

theorem maj_flip_3 (a x : Nat) : a &&& a ||| a &&& x ||| a &&& x = a := by
  apply Nat.eq_of_testBit_eq
  intro i
  simp only [Nat.testBit_or, Nat.testBit_and]
  cases a.testBit i <;> cases x.testBit i <;> rfl

theorem or_bytes_eq_sum (a0 a1 a2 a3 a4 a5 a6 a7 : Nat)
    (h0 : a0 < 256) (h1 : a1 < 256) (h2 : a2 < 256) (h3 : a3 < 256)
    (h4 : a4 < 256) (h5 : a5 < 256) (h6 : a6 < 256) (h7 : a7 ≤ 255) :
    a0 ||| a1 <<< 8 ||| a2 <<< 16 ||| a3 <<< 24 ||| a4 <<< 32 ||| a5 <<< 40 |||
      a6 <<< 48 ||| a7 <<< 56
      = a7 * 2 ^ 56 + (a6 * 2 ^ 48 + (a5 * 2 ^ 40 + (a4 * 2 ^ 32 +
          (a3 * 2 ^ 24 + (a2 * 2 ^ 16 + (a1 * 2 ^ 8 + a0)))))) := by
  rw [Nat.lor_comm a0 _, shiftLeft_or_eq_add a1 a0 8 (by omega)]
  rw [Nat.lor_comm _ (a2 <<< 16), shiftLeft_or_eq_add a2 _ 16 (by omega)]
  rw [Nat.lor_comm _ (a3 <<< 24), shiftLeft_or_eq_add a3 _ 24 (by omega)]
  rw [Nat.lor_comm _ (a4 <<< 32), shiftLeft_or_eq_add a4 _ 32 (by omega)]
  rw [Nat.lor_comm _ (a5 <<< 40), shiftLeft_or_eq_add a5 _ 40 (by omega)]
  rw [Nat.lor_comm _ (a6 <<< 48), shiftLeft_or_eq_add a6 _ 48 (by omega)]
  rw [Nat.lor_comm _ (a7 <<< 56), shiftLeft_or_eq_add a7 _ 56 (by omega)]

theorem u64_le_roundtrip (x : Nat) (hx : x < 2 ^ 64) :
    u64FromLeBytes (u64ToLeBytes x) = x := by
  have h255 : (255 : Nat) = 2 ^ 8 - 1 := rfl
  show x &&& 255 ||| ((x >>> 8) &&& 255) <<< 8 ||| ((x >>> 16) &&& 255) <<< 16 |||
      ((x >>> 24) &&& 255) <<< 24 ||| ((x >>> 32) &&& 255) <<< 32 |||
      ((x >>> 40) &&& 255) <<< 40 ||| ((x >>> 48) &&& 255) <<< 48 |||
      ((x >>> 56) &&& 255) <<< 56 = x
  rw [h255]
  simp only [Nat.and_pow_two_sub_one_eq_mod, Nat.shiftRight_eq_div_pow]
  rw [or_bytes_eq_sum _ _ _ _ _ _ _ _ (by omega) (by omega) (by omega) (by omega)
    (by omega) (by omega) (by omega) (by omega)]
  omega

/-- Claim C5: header majority recovery.  For every payload `P`, flipping any
single bit (byte `j < 144`, any bit index `t`) of the 144-byte triplicated
header `data_block_header P` and applying `read_data_header` still returns
the original fields: the `VERSION_CODE` magic, the payload length and the
SHA-256 hash, the vote being the bytewise `(a & b) | (b & c) | (a & c)`. -/
theorem read_data_header_flip (sha : List Nat → List Nat) (P : List Nat)
    (hsha : (sha P).length = 32) (hlen : P.length < 2 ^ 64) (j t : Nat)
    (hj : j < 144) :
    read_data_header (flipBit (data_block_header sha P) j t)
      = ⟨VERSION_CODE, P.length, sha P⟩ := by
  set a := VERSION_CODE ++ u64ToLeBytes (P.length % 2 ^ 64) ++ sha P with ha
  have hal : a.length = 48 := by
    rw [ha, List.length_append, List.length_append, hsha]
    rfl
  have hH : data_block_header sha P
      = (List.range 144).map (fun i => a.getD (i % 48) 0) := by
    rw [ha]
    rfl
  have hHlen : (data_block_header sha P).length = 144 := by
    rw [hH, List.length_map, List.length_range]
  set v := (data_block_header sha P).getD j 0 ^^^ (1 <<< t) with hv
  have hHf : flipBit (data_block_header sha P) j t
      = (data_block_header sha P).set j v := rfl
  have hFget : ∀ i, i < 144 → (flipBit (data_block_header sha P) j t).getD i 0
      = if i = j then v else a.getD (i % 48) 0 := by
    intro i hi
    rw [hHf]
    by_cases hij : i = j
    · subst hij
      rw [if_pos rfl]
      exact getD_set_self _ _ _ (by omega)
    · rw [if_neg hij, getD_set_ne _ _ _ _ hij, hH, getD_map_range _ 144 i hi]
  set Hf := flipBit (data_block_header sha P) j t with hHfdef
  have hread : read_data_header Hf
      = ⟨((List.range 48).map (fun i =>
            (Hf.take 48).getD i 0 &&& ((Hf.drop 48).take 48).getD i 0 |||
              ((Hf.drop 48).take 48).getD i 0 &&& ((Hf.drop 48).drop 48).getD i 0 |||
              (Hf.take 48).getD i 0 &&& ((Hf.drop 48).drop 48).getD i 0)).take 8,
          u64FromLeBytes ((((List.range 48).map (fun i =>
            (Hf.take 48).getD i 0 &&& ((Hf.drop 48).take 48).getD i 0 |||
              ((Hf.drop 48).take 48).getD i 0 &&& ((Hf.drop 48).drop 48).getD i 0 |||
              (Hf.take 48).getD i 0 &&& ((Hf.drop 48).drop 48).getD i 0)).drop 8).take 8),
          ((List.range 48).map (fun i =>
            (Hf.take 48).getD i 0 &&& ((Hf.drop 48).take 48).getD i 0 |||
              ((Hf.drop 48).take 48).getD i 0 &&& ((Hf.drop 48).drop 48).getD i 0 |||
              (Hf.take 48).getD i 0 &&& ((Hf.drop 48).drop 48).getD i 0)).drop 16⟩ := rfl
  have hmaj : (List.range 48).map (fun i =>
      (Hf.take 48).getD i 0 &&& ((Hf.drop 48).take 48).getD i 0 |||
        ((Hf.drop 48).take 48).getD i 0 &&& ((Hf.drop 48).drop 48).getD i 0 |||
        (Hf.take 48).getD i 0 &&& ((Hf.drop 48).drop 48).getD i 0) = a := by
    have hcongr : ∀ i ∈ List.range 48,
        (Hf.take 48).getD i 0 &&& ((Hf.drop 48).take 48).getD i 0 |||
          ((Hf.drop 48).take 48).getD i 0 &&& ((Hf.drop 48).drop 48).getD i 0 |||
          (Hf.take 48).getD i 0 &&& ((Hf.drop 48).drop 48).getD i 0
        = (fun i => a.getD i 0) i := by
      intro i hi
      have hi48 : i < 48 := List.mem_range.mp hi
      have hp1 : (Hf.take 48).getD i 0 = if i = j then v else a.getD i 0 := by
        rw [getD_take _ _ _ hi48, hFget i (by omega),
          Nat.mod_eq_of_lt (by omega : i < 48)]
      have hp2 : ((Hf.drop 48).take 48).getD i 0
          = if 48 + i = j then v else a.getD i 0 := by
        rw [getD_take _ _ _ hi48, getD_drop, hFget (48 + i) (by omega),
          show (48 + i) % 48 = i from by omega]
      have hp3 : ((Hf.drop 48).drop 48).getD i 0
          = if 96 + i = j then v else a.getD i 0 := by
        rw [getD_drop, getD_drop, show (48 : Nat) + (48 + i) = 96 + i from by omega,
          hFget (96 + i) (by omega), show (96 + i) % 48 = i from by omega]
      rw [hp1, hp2, hp3]
      by_cases hc1 : i = j
      · rw [if_pos hc1, if_neg (by omega), if_neg (by omega)]
        exact maj_flip_1 (a.getD i 0) v
      · rw [if_neg hc1]
        by_cases hc2 : 48 + i = j
        · rw [if_pos hc2, if_neg (by omega)]
          exact maj_flip_2 (a.getD i 0) v
        · rw [if_neg hc2]
          by_cases hc3 : 96 + i = j
          · rw [if_pos hc3]
            exact maj_flip_3 (a.getD i 0) v
          · rw [if_neg hc3]
            exact maj_flip_1 (a.getD i 0) (a.getD i 0)
    rw [List.map_congr_left hcongr, map_range_getD a 48 hal]
  rw [hread, hmaj, ha]
  have hfield1 : (VERSION_CODE ++ u64ToLeBytes (P.length % 2 ^ 64) ++ sha P).take 8
      = VERSION_CODE := by
    rw [List.append_assoc, take_append_len VERSION_CODE _ 8 rfl]
  have hfield2 : u64FromLeBytes
      (((VERSION_CODE ++ u64ToLeBytes (P.length % 2 ^ 64) ++ sha P).drop 8).take 8)
      = P.length := by
    rw [List.append_assoc, drop_append_len VERSION_CODE _ 8 rfl,
      take_append_len (u64ToLeBytes (P.length % 2 ^ 64)) _ 8 rfl,
      u64_le_roundtrip _ (Nat.mod_lt _ (by norm_num)), Nat.mod_eq_of_lt hlen]
  have hfield3 : (VERSION_CODE ++ u64ToLeBytes (P.length % 2 ^ 64) ++ sha P).drop 16
      = sha P := by
    rw [drop_append_len (VERSION_CODE ++ u64ToLeBytes (P.length % 2 ^ 64)) _ 16
      (by rw [List.length_append]; rfl)]
  rw [hfield1, hfield2, hfield3]

/-- Witness for claim C5: payload `[7]` with a stand-in 32-byte hash function,
flipping bit 0 of byte 0. -/
theorem read_data_header_flip_witness :
    read_data_header (flipBit (data_block_header (fun _ => List.range 32) [7]) 0 0)
      = ⟨VERSION_CODE, ([7] : List Nat).length, List.range 32⟩ :=
  read_data_header_flip (fun _ => List.range 32) [7] (by decide) (by decide) 0 0
    (by decide)

/-! ## File reconstruction (`Converter::reconstruct_file`, claim C10)

The filesystem and video layers are external: the decoded frames (one byte
list per extracted frame, as produced by `frame_to_data ∘ average_blocks`) are
a parameter, as are the existence of the destination file, the `overwrite`
flag and whether the final `fs::write` succeeds.  The returned pair is the
function result together with the list of write operations attempted on the
output path (`fs::write` is the only one; a failed write attempt is also
recorded).  The header slice `img_content[0..144]` is modelled with
`take 144`; for frames shorter than 144 bytes the Rust slice panics instead
(see claim C9). -/

/-- `FileReport` from `src/converter.rs`. -/
structure FileReport where
  corrected_errors : Nat
  uncorrected_errors : Nat
  hash_match : Bool

/-- One iteration of the frame scan loop in `reconstruct_file`: the state is
`(found_header_frame, checked_header, read_from_video)`. -/
def scanStep (st : Bool × HeaderData × List Nat) (img : List Nat) :
    Bool × HeaderData × List Nat :=
  if st.1 then (true, st.2.1, st.2.2 ++ img)
  else if (img.take 144).any (fun x => x != 0) then
    (true, read_data_header (img.take 144), st.2.2 ++ img.drop 144)
  else st

/-- The tail of `reconstruct_file` after the Hamming decode: the four fatal
checks in source order (each `bail!` before `fs::write`), the resize to the
expected size, then the write. -/
def reconstruct_post (sha : List Nat → List Nat) (checked_header : HeaderData)
    (dest_exists overwrite write_ok : Bool)
    (dec : Except String (List Nat × HammingReport)) :
    Except String FileReport × List (List Nat) :=
  match dec with
  | Except.error e => (Except.error e, [])
  | Except.ok (corrected_data, report) =>
    if checked_header.version_code ≠ VERSION_CODE then
      (Except.error
        "Unable to find correct VERSION_CODE. First data frame missing or corrupted.",
        [])
    else if checked_header.data_len = 0 then
      (Except.error "Expected size read as invalid value zero.", [])
    else if checked_header.data_len > corrected_data.length then
      (Except.error "Read less data than expected file size.", [])
    else if !overwrite && dest_exists then
      (Except.error "File at file output path exists and overwrite is not enabled.",
        [])
    else if write_ok then
      (Except.ok ⟨report.corrected_errors, report.uncorrected_errors,
        sha (corrected_data.take checked_header.data_len)
          == checked_header.sha256_hash⟩,
        [corrected_data.take checked_header.data_len])
    else
      (Except.error "Unable to write output file.",
        [corrected_data.take checked_header.data_len])

/-- `Converter::reconstruct_file`: scan the frames, pad the recovered bytes to
a whole number of 16-byte Hamming chunks, decode, then run the checks and the
write. -/
def reconstruct_file (sha : List Nat → List Nat) (frames : List (List Nat))
    (dest_exists overwrite write_ok : Bool) :
    Except String FileReport × List (List Nat) :=
  let st := frames.foldl scanStep
    (false, ⟨List.replicate 8 0, 0, List.replicate 32 0⟩, [])
  reconstruct_post sha st.2.1 dest_exists overwrite write_ok
    (decode_with_hamming_31_26 (st.2.2 ++
      List.replicate ((st.2.2.length + 15) / 16 * 16 - st.2.2.length) 0))

/-- Claim C10: abort atomicity of reconstruction.  Whenever `reconstruct_file`
aborts with one of its four fatal errors (version-code mismatch, zero header
length, header length exceeding the recovered byte count, or destination
exists without overwrite), it returns before writing anything to the output
path. -/
theorem reconstruct_file_abort_atomic (sha : List Nat → List Nat)
    (frames : List (List Nat)) (dest_exists overwrite write_ok : Bool) (e : String)
    (he : (reconstruct_file sha frames dest_exists overwrite write_ok).1
      = Except.error e)
    (hfatal :
      e = "Unable to find correct VERSION_CODE. First data frame missing or corrupted."
        ∨ e = "Expected size read as invalid value zero."
        ∨ e = "Read less data than expected file size."
        ∨ e = "File at file output path exists and overwrite is not enabled.") :
    (reconstruct_file sha frames dest_exists overwrite write_ok).2 = [] := by
  have hpost : ∀ (hd : HeaderData) (dec : Except String (List Nat × HammingReport)),
      (reconstruct_post sha hd dest_exists overwrite write_ok dec).1
          = Except.error e →
      (reconstruct_post sha hd dest_exists overwrite write_ok dec).2 = [] := by
    intro hd dec hp
    match dec with
    | Except.error e' => rfl
    | Except.ok (cd, rep) =>
      simp only [reconstruct_post] at hp ⊢
      split_ifs at hp ⊢
      all_goals try rfl
      all_goals simp at hp
      all_goals rcases hfatal with h | h | h | h <;> rw [h] at hp <;>
        exact absurd hp (by decide)
  exact hpost _ _ he

/-- Witness for claim C10: with no frames at all the header keeps its zeroed
default, the version-code check fails, and nothing is written. -/
theorem reconstruct_file_abort_atomic_witness :
    (reconstruct_file (fun _ => []) [] false false true).1
      = Except.error
        "Unable to find correct VERSION_CODE. First data frame missing or corrupted."
      ∧
    (reconstruct_file (fun _ => []) [] false false true).2 = [] :=
  ⟨rfl, reconstruct_file_abort_atomic (fun _ => []) [] false false true
    "Unable to find correct VERSION_CODE. First data frame missing or corrupted."
    rfl (Or.inl rfl)⟩

end Vortexkey
